import Mathlib

/-!
# Verification of the `use_rag` extraction core (LLM_to_graph)

Shallow embedding of `src/use_rag/parser.py`, `src/use_rag/client.py` and
`src/use_rag/extractors.py`.  Python strings are modelled as `List Char`
(`Chars`); the ASCII fragments of Python's whitespace/case semantics are
used (the repository's delimiters, markers and provider tables are all
ASCII).  Python's `float` values are modelled exactly: finite values as
rationals, plus infinities and nan (`PyFloat`).  Fallible Python code
(`float(...)`, list indexing) is additionally embedded in an `Except`
monad to settle the "never raises" claims.
-/

set_option maxHeartbeats 1000000

abbrev Chars := List Char

/-- Python `\s` / `str.strip()` whitespace test, ASCII fragment:
space, tab, newline, carriage return, vertical tab, form feed. -/
def isPySpace (c : Char) : Bool :=
  c == ' ' || c == '\t' || c == '\n' || c == '\r' || c == '\x0b' || c == '\x0c'

/-- Python `str.strip()` (no argument): drop leading and trailing whitespace. -/
def pyStrip (l : Chars) : Chars :=
  ((l.dropWhile isPySpace).reverse.dropWhile isPySpace).reverse

/-- Python `re.sub(r"\s+", " ", text)`: every maximal run of whitespace
characters becomes a single space. -/
def collapseWS : Chars → Chars
  | [] => []
  | [c] => if isPySpace c then [' '] else [c]
  | c :: d :: rest =>
    if isPySpace c then
      if isPySpace d then collapseWS (d :: rest)
      else ' ' :: collapseWS (d :: rest)
    else c :: collapseWS (d :: rest)

/-- Model of `parser.clean_str`: strip, then collapse interior whitespace runs.
(The `if not text: return ""` early return of the source is the same
function at the empty string.) -/
def cleanStr (l : Chars) : Chars := collapseWS (pyStrip l)

/-- The two characters stripped by `.strip('"\'')` in the source. -/
def isQuoteChar (c : Char) : Bool := c == Char.ofNat 34 || c == Char.ofNat 39

/-- Python `str.strip('"\'')`: drop leading and trailing quote characters. -/
def stripQuotes (l : Chars) : Chars :=
  ((l.dropWhile isQuoteChar).reverse.dropWhile isQuoteChar).reverse

/-- Fuelled worker for Python `str.split(sep)` (`sep` non-empty): scan left to
right, breaking at each leftmost non-overlapping occurrence of `sep`.  `acc`
holds the current chunk reversed.  With `fuel ≥` the input length the fuel
never runs out (each step consumes at least one character). -/
def splitOnFuel (sep : Chars) : Nat → Chars → Chars → List Chars
  | _, [], acc => [acc.reverse]
  | 0, l, acc => [acc.reverse ++ l]
  | fuel + 1, c :: rest, acc =>
    if sep.isPrefixOf (c :: rest) then
      acc.reverse :: splitOnFuel sep fuel ((c :: rest).drop sep.length) []
    else
      splitOnFuel sep fuel rest (c :: acc)

/-- Python `str.split(sep)` for non-empty `sep`. -/
def splitOnSep (sep : Chars) (l : Chars) : List Chars :=
  splitOnFuel sep l.length l []

/-- Fuelled worker for Python `str.replace(pat, repl)` (`pat` non-empty):
replace each leftmost non-overlapping occurrence. -/
def replaceFuel (pat repl : Chars) : Nat → Chars → Chars
  | _, [] => []
  | 0, l => l
  | fuel + 1, c :: rest =>
    if pat.isPrefixOf (c :: rest) then
      repl ++ replaceFuel pat repl fuel ((c :: rest).drop pat.length)
    else
      c :: replaceFuel pat repl fuel rest

/-- Python `str.replace(pat, repl)` for non-empty `pat` (the source only uses
it with a non-empty pattern and an empty replacement). -/
def pyReplace (pat repl l : Chars) : Chars := replaceFuel pat repl l.length l

/-! ## Python `float()` -/

/-- The value of a Python `float(...)` call on a string: a finite value
(kept exactly as a rational — the claims under study only involve values
that are exact in both representations), an infinity, or nan. -/
inductive PyFloat where
  | finite (q : ℚ)
  | inf (neg : Bool)
  | nan
deriving DecidableEq, Repr

/-- Scan a run of decimal digits possibly containing single underscores
between digits (CPython's numeric-literal rule for `float()`): returns the
accumulated value, the number of digits read, and the unread remainder.
A misplaced underscore stops the scan with the underscore unread, which
makes the whole parse fail through the caller's "input exhausted" check —
exactly CPython's rejection of `"1_"`, `"1__2"`, `"_1"`.
(ASCII digits only; CPython also accepts non-ASCII decimal digits.) -/
def scanDigits : Nat → Nat → Chars → Nat × Nat × Chars
  | acc, cnt, [] => (acc, cnt, [])
  | acc, cnt, c :: rest =>
    if c.isDigit then scanDigits (10 * acc + (c.toNat - 48)) (cnt + 1) rest
    else if c = '_' then
      match rest with
      | d :: rest2 =>
        if 0 < cnt ∧ d.isDigit then scanDigits (10 * acc + (d.toNat - 48)) (cnt + 1) rest2
        else (acc, cnt, c :: rest)
      | [] => (acc, cnt, c :: rest)
    else (acc, cnt, c :: rest)

/-- An optional leading sign; returns (isNegative, rest). -/
def parseSign : Chars → Bool × Chars
  | '+' :: r => (false, r)
  | '-' :: r => (true, r)
  | l => (false, l)

/-- The exact rational denoted by sign/intpart/fracpart/exponent:
`±(ip.fp) · 10^(±ev)`, written as a single integer quotient. -/
def decimalValue (neg : Bool) (ip fp fpCnt ev : Nat) (eneg : Bool) : ℚ :=
  let m : Int := ((ip * 10 ^ fpCnt + fp : Nat) : Int)
  let m := if neg then -m else m
  if eneg then Rat.divInt m ((10 ^ (fpCnt + ev) : Nat) : Int)
  else Rat.divInt (m * ((10 ^ ev : Nat) : Int)) ((10 ^ fpCnt : Nat) : Int)

/-- The number grammar of `float()` after the sign:
`digits [. digits] [e [sign] digits]` or `. digits [e [sign] digits]`,
requiring the whole remaining input to be consumed. -/
def parseDecimal (neg : Bool) (s : Chars) : Option PyFloat :=
  let r0 := scanDigits 0 0 s
  let r1 := match r0.2.2 with
    | '.' :: r => scanDigits 0 0 r
    | _ => (0, 0, r0.2.2)
  if r0.2.1 = 0 ∧ r1.2.1 = 0 then none
  else
    match r1.2.2 with
    | [] => some (.finite (decimalValue neg r0.1 r1.1 r1.2.1 0 false))
    | e :: r3 =>
      if e = 'e' ∨ e = 'E' then
        let (eneg, r4) := parseSign r3
        let r5 := scanDigits 0 0 r4
        if r5.2.1 = 0 ∨ r5.2.2 ≠ [] then none
        else some (.finite (decimalValue neg r0.1 r1.1 r1.2.1 r5.1 eneg))
      else none

/-- Python `float(s)` on a string: `some` the value, `none` when `float`
raises `ValueError`.  Surrounding whitespace is ignored, an optional sign
precedes `inf`/`infinity`/`nan` (case-insensitive) or a decimal number. -/
def pyFloatParse (input : Chars) : Option PyFloat :=
  let s := pyStrip input
  let (neg, s1) := parseSign s
  let ls := s1.map Char.toLower
  if ls = "inf".data ∨ ls = "infinity".data then some (.inf neg)
  else if ls = "nan".data then some .nan
  else parseDecimal neg s1

/-! ## Data model (`use_rag/models`) -/

/-- Model of `models/entity.py`: an extracted entity. -/
structure Entity where
  name : Chars
  type : Chars
  description : Chars
deriving DecidableEq, Repr

/-- Model of `models/relationship.py`: a relationship between two entities. -/
structure Relationship where
  source : Chars
  target : Chars
  description : Chars
  weight : PyFloat
deriving DecidableEq, Repr

/-- Model of `models/claim.py`: an extracted claim. -/
structure Claim where
  subject : Chars
  object : Option Chars
  type : Chars
  status : Chars
  start_date : Option Chars
  end_date : Option Chars
  description : Chars
  source_text : Chars
deriving DecidableEq, Repr

/-! ## The delimiters (`parser.py`) -/

def RECORD_DELIMITER : Chars := "##".data
def TUPLE_DELIMITER : Chars := "<|>".data
def COMPLETION_MARKER : Chars := "<|COMPLETE|>".data

/-- The model of `re.search(r"\((.+?)\)\s*$", record, re.DOTALL)`, returning
`match.group(1)`.  With `re.DOTALL`, `.` matches every character, so the
pattern matches iff: the last `')'` of the string is followed only by
whitespace (a `')'` with a non-whitespace character after it cannot end the
match, and at most one `')'` can be followed by whitespace only, namely the
last one), and some `'('` lies at least two positions before it (`.+?` needs
one character or more).  `re.search` takes the earliest starting position,
i.e. the first such `'('`; the lazy `.+?` then ends at that unique `')'`.
The group is everything strictly between the two. -/
def extractParenGroup (l : Chars) : Option Chars :=
  let rev := l.reverse
  let afterLast := rev.takeWhile (fun c => !(c == ')'))
  let fromLast := rev.dropWhile (fun c => !(c == ')'))
  if fromLast.isEmpty then none
  else if !afterLast.all isPySpace then none
  else
    match (fromLast.drop 1).reverse.dropWhile (fun c => !(c == '(')) with
    | [] => none
    | [_] => none
    | _ :: inner => some inner

/-! ## `parser.parse_graph_output` -/

/-- The body of the `for record in records` loop of `parse_graph_output`:
what one chunk contributes (`none` = the chunk is skipped). -/
def parseGraphRecord (record0 : Chars) : Option (Entity ⊕ Relationship) :=
  let record := pyStrip record0
  if record.isEmpty then none
  else
    match extractParenGroup record with
    | none => none
    | some content =>
      match splitOnSep TUPLE_DELIMITER content with
      | [] => none
      | [_] => none
      | t :: a :: parts2 =>
        let rt := stripQuotes ((cleanStr t).map Char.toLower)
        if rt = "entity".data then
          match parts2 with
          | b :: c :: _ => some (Sum.inl ⟨cleanStr a, cleanStr b, cleanStr c⟩)
          | _ => none
        else if rt = "relationship".data then
          match parts2 with
          | b :: c :: tail =>
            let weight := match tail with
              | [] => PyFloat.finite 1
              | w :: _ => (pyFloatParse (cleanStr w)).getD (PyFloat.finite 1)
            some (Sum.inr ⟨cleanStr a, cleanStr b, cleanStr c, weight⟩)
          | _ => none
        else none

def entityOfRecord (r : Chars) : Option Entity :=
  match parseGraphRecord r with
  | some (Sum.inl e) => some e
  | _ => none

def relationshipOfRecord (r : Chars) : Option Relationship :=
  match parseGraphRecord r with
  | some (Sum.inr x) => some x
  | _ => none

/-- Both parsers' preprocessing: strip the completion marker, strip
whitespace, split on the record delimiter. -/
def recordChunks (llmOutput : Chars) : List Chars :=
  splitOnSep RECORD_DELIMITER (pyStrip (pyReplace COMPLETION_MARKER [] llmOutput))

/-- Model of `parser.parse_graph_output`: each chunk appends at most one record to
the entity list or to the relationship list, in input order. -/
def parseGraphOutput (llmOutput : Chars) : List Entity × List Relationship :=
  ((recordChunks llmOutput).filterMap entityOfRecord,
   (recordChunks llmOutput).filterMap relationshipOfRecord)

/-! ## `parser.parse_claims_output` -/

/-- The body of the `for record in records` loop of `parse_claims_output`. -/
def parseClaimRecord (record0 : Chars) : Option Claim :=
  let record := pyStrip record0
  if record.isEmpty then none
  else
    match extractParenGroup record with
    | none => none
    | some content =>
      match splitOnSep TUPLE_DELIMITER content with
      | p0 :: p1 :: p2 :: p3 :: p4 :: p5 :: p6 :: p7 :: _ =>
        let o := cleanStr p1
        let obj := if o.map Char.toUpper = "NONE".data then none else some o
        let s4 := cleanStr p4
        let sd := if s4.map Char.toUpper = "NONE".data then none else some s4
        let s5 := cleanStr p5
        let ed := if s5.map Char.toUpper = "NONE".data then none else some s5
        some ⟨cleanStr p0, obj, cleanStr p2, cleanStr p3, sd, ed, cleanStr p6, cleanStr p7⟩
      | _ => none

/-- Model of `parser.parse_claims_output`. -/
def parseClaimsOutput (llmOutput : Chars) : List Claim :=
  (recordChunks llmOutput).filterMap parseClaimRecord

/-! ## Exception-explicit parsers (for the "never raises" claim)

Every Python operation in the parser bodies that can raise — `float(...)`
(`ValueError`, caught by the source's `try/except`) and sequence indexing
(`IndexError`) — is made explicit in an `Except` monad; everything else on
`str` is total.  Proving these return `.ok` of the pure parsers settles
that the source never raises. -/

inductive PyExc where
  | valueError
  | indexError
deriving DecidableEq, Repr

/-- Python `parts[i]`: raises `IndexError` out of range. -/
def listGetE {α : Type} (l : List α) (i : Nat) : Except PyExc α :=
  match l.get? i with
  | some a => .ok a
  | none => .error .indexError

/-- Python `float(s)`: raises `ValueError` when the string does not parse. -/
def pyFloatE (l : Chars) : Except PyExc PyFloat :=
  match pyFloatParse l with
  | some f => .ok f
  | none => .error .valueError

/-- The loop body of `parse_graph_output` with its fallible operations in
`Except`, mirroring the source's index accesses and its `try/except
ValueError` around `float`. -/
def parseGraphRecordE (record0 : Chars) : Except PyExc (Option (Entity ⊕ Relationship)) := do
  let record := pyStrip record0
  if record.isEmpty then return none
  else
    match extractParenGroup record with
    | none => return none
    | some content =>
      let parts := splitOnSep TUPLE_DELIMITER content
      if parts.length < 2 then return none
      let t ← listGetE parts 0
      let rt := stripQuotes ((cleanStr t).map Char.toLower)
      if rt = "entity".data ∧ 4 ≤ parts.length then
        let a ← listGetE parts 1
        let b ← listGetE parts 2
        let c ← listGetE parts 3
        return some (Sum.inl ⟨cleanStr a, cleanStr b, cleanStr c⟩)
      else if rt = "relationship".data ∧ 4 ≤ parts.length then
        let a ← listGetE parts 1
        let b ← listGetE parts 2
        let c ← listGetE parts 3
        let weight ←
          if 5 ≤ parts.length then do
            let w ← listGetE parts 4
            match pyFloatE (cleanStr w) with
            | .ok f => pure f
            | .error .valueError => pure (PyFloat.finite 1)
            | .error e => throw e
          else pure (PyFloat.finite 1)
        return some (Sum.inr ⟨cleanStr a, cleanStr b, cleanStr c, weight⟩)
      else return none

/-- Model of `parse_graph_output` with explicit exceptions: the loop propagates the
first exception of any iteration. -/
def parseGraphOutputE (llmOutput : Chars) : Except PyExc (List Entity × List Relationship) := do
  let rs ← (recordChunks llmOutput).mapM parseGraphRecordE
  pure (rs.filterMap (fun o => match o with | some (Sum.inl e) => some e | _ => none),
        rs.filterMap (fun o => match o with | some (Sum.inr x) => some x | _ => none))

/-- The loop body of `parse_claims_output` with its index accesses in
`Except` (its only fallible operations). -/
def parseClaimRecordE (record0 : Chars) : Except PyExc (Option Claim) := do
  let record := pyStrip record0
  if record.isEmpty then return none
  else
    match extractParenGroup record with
    | none => return none
    | some content =>
      let parts := splitOnSep TUPLE_DELIMITER content
      if parts.length < 8 then return none
      let p0 ← listGetE parts 0
      let p1 ← listGetE parts 1
      let p2 ← listGetE parts 2
      let p3 ← listGetE parts 3
      let p4 ← listGetE parts 4
      let p5 ← listGetE parts 5
      let p6 ← listGetE parts 6
      let p7 ← listGetE parts 7
      let o := cleanStr p1
      let obj := if o.map Char.toUpper = "NONE".data then none else some o
      let s4 := cleanStr p4
      let sd := if s4.map Char.toUpper = "NONE".data then none else some s4
      let s5 := cleanStr p5
      let ed := if s5.map Char.toUpper = "NONE".data then none else some s5
      return some ⟨cleanStr p0, obj, cleanStr p2, cleanStr p3, sd, ed, cleanStr p6, cleanStr p7⟩

/-- Model of `parse_claims_output` with explicit exceptions. -/
def parseClaimsOutputE (llmOutput : Chars) : Except PyExc (List Claim) := do
  let rs ← (recordChunks llmOutput).mapM parseClaimRecordE
  pure (rs.filterMap id)

/-! ## `client.py` -/

/-- One row of `client.PROVIDER_CONFIG`. -/
structure ProviderEntry where
  provider : Chars
  pfxs : List Chars
  envVar : Chars

/-- Model of `client.PROVIDER_CONFIG`, in the source's (dict insertion) order. -/
def PROVIDER_CONFIG : List ProviderEntry :=
  [⟨"openai".data, ["gpt-".data, "o1-".data, "o3-".data], "OPENAI_API_KEY".data⟩,
   ⟨"anthropic".data, ["claude-".data], "ANTHROPIC_API_KEY".data⟩,
   ⟨"gemini".data, ["gemini/".data, "gemini-".data], "GEMINI_API_KEY".data⟩]

/-- Model of `client.detect_provider`: the first provider one of whose prefixes
matches the lowercased model name. -/
def detectProvider (model : Chars) : Option Chars :=
  let ml := model.map Char.toLower
  (PROVIDER_CONFIG.find? (fun p => p.pfxs.any (fun pre => pre.isPrefixOf ml))).map
    (fun p => p.provider)

/-- An environment: variable name to value (`none` = unset).  Python
truthiness makes an empty-string value behave like an unset one where the
source tests `if key:` / `if not self.api_key:` / `api_key or ...`. -/
def EnvMap := Chars → Option Chars

/-- The `# Fallback: check all provider env vars` loop of
`get_api_key_for_provider`: the first provider whose env var holds a truthy
(set, non-empty) value. -/
def fallbackEnvKey (env : EnvMap) : Option Chars :=
  PROVIDER_CONFIG.findSome? (fun e =>
    match env e.envVar with
    | some k => if k.isEmpty then none else some k
    | none => none)

/-- Model of `client.get_api_key_for_provider`.  Note the source's early `return
os.environ.get(env_var)` in the known-provider branch: it returns even when
the variable is unset, so the fallback loop runs only when no provider was
detected (or the name is not a key of the table). -/
def getApiKeyForProvider (env : EnvMap) (provider : Option Chars) : Option Chars :=
  match provider with
  | some p =>
    match PROVIDER_CONFIG.find? (fun e => e.provider = p) with
    | some entry => env entry.envVar
    | none => fallbackEnvKey env
  | none => fallbackEnvKey env

/-- The state of a constructed `LLMClient`. -/
structure LLMClient where
  model : Chars
  provider : Option Chars
  apiKey : Chars
deriving DecidableEq, Repr

/-- Model of `LLMClient.__init__`: `none` models the `ValueError` raised when the
resolved key is falsy.  `self.api_key = api_key or
get_api_key_for_provider(self.provider)` uses Python truthiness: an
explicit empty-string key falls through to the environment lookup. -/
def mkLLMClient (env : EnvMap) (model : Chars) (apiKey : Option Chars) : Option LLMClient :=
  let provider := detectProvider model
  let key : Option Chars :=
    match apiKey with
    | some k => if k.isEmpty then getApiKeyForProvider env provider else some k
    | none => getApiKeyForProvider env provider
  match key with
  | some k => if k.isEmpty then none else some ⟨model, provider, k⟩
  | none => none

/-! ## `extractors.py` -/

/-- First-occurrence-wins deduplication by a key, as the source's
insertion-ordered `dict` loop (`if key not in seen: seen[key] = x`;
`list(seen.values())`): `seen` is the set of keys already kept. -/
def dedupAux {α κ : Type} [DecidableEq κ] (key : α → κ) : List κ → List α → List α
  | _, [] => []
  | seen, x :: rest =>
    if key x ∈ seen then dedupAux key seen rest
    else x :: dedupAux key (key x :: seen) rest

def dedupByKey {α κ : Type} [DecidableEq κ] (key : α → κ) (l : List α) : List α :=
  dedupAux key [] l

/-- Model of `loop_response.strip().upper().startswith("N")` (ASCII `upper`). -/
def startsWithN (l : Chars) : Bool :=
  match pyStrip l with
  | c :: _ => c.toUpper == 'N'
  | [] => false

/-- The dedup key of `ClaimExtractor.extract`:
`(c.subject, c.type, hash(c.description[:50]))`.  Python's string `hash` is
an unspecified (per-process randomized) function; it is taken as a
parameter `h`, so every theorem below holds for the actual one. -/
def claimKey (h : Chars → Int) (c : Claim) : Chars × Chars × Int :=
  (c.subject, c.type, h (c.description.take 50))

/-- The gleaning `while` loop of `GraphExtractor.extract`, against a
scripted client: `script k` is the reply to the `k`-th chat call (the
conversation history the source also accumulates only feeds the real LLM,
so a run is determined by the reply sequence).  State: completed
`iteration` count, chat `calls` made so far, accumulated (not yet
deduplicated) records.  The source's loop condition is
`max_gleanings < 0 or iteration < max_gleanings`; `fuel` bounds how many
iterations are observed (for `maxG ≥ 0` the loop exits by itself within
`maxG` iterations, and any `fuel ≥ maxG` gives the run's true result). -/
def graphGleanLoop (script : Nat → Chars) (maxG : Int) :
    Nat → Nat → Nat → List Entity × List Relationship →
    (List Entity × List Relationship) × Nat
  | 0, _, calls, acc => (acc, calls)
  | fuel + 1, iteration, calls, acc =>
    if maxG < 0 ∨ (iteration : Int) < maxG then
      let pr := parseGraphOutput (script calls)
      let acc2 := (acc.1 ++ pr.1, acc.2 ++ pr.2)
      if startsWithN (script (calls + 1)) then (acc2, calls + 2)
      else graphGleanLoop script maxG fuel (iteration + 1) (calls + 2) acc2
    else (acc, calls)

/-- Model of `GraphExtractor.extract` up to (not including) the final deduplication:
the accumulated records and the number of chat calls made. -/
def graphExtractRaw (script : Nat → Chars) (maxG : Int) (fuel : Nat) :
    (List Entity × List Relationship) × Nat :=
  graphGleanLoop script maxG fuel 0 1 (parseGraphOutput (script 0))

/-- Model of `GraphExtractor.extract`: the gleaning loop followed by deduplication of
entities by name and relationships by (source, target). -/
def graphExtract (script : Nat → Chars) (maxG : Int) (fuel : Nat) :
    (List Entity × List Relationship) × Nat :=
  let r := graphExtractRaw script maxG fuel
  ((dedupByKey Entity.name r.1.1,
    dedupByKey (fun rel => (rel.source, rel.target)) r.1.2), r.2)

/-- The gleaning `while` loop of `ClaimExtractor.extract`. -/
def claimGleanLoop (script : Nat → Chars) (maxG : Int) :
    Nat → Nat → Nat → List Claim → List Claim × Nat
  | 0, _, calls, acc => (acc, calls)
  | fuel + 1, iteration, calls, acc =>
    if maxG < 0 ∨ (iteration : Int) < maxG then
      let acc2 := acc ++ parseClaimsOutput (script calls)
      if startsWithN (script (calls + 1)) then (acc2, calls + 2)
      else claimGleanLoop script maxG fuel (iteration + 1) (calls + 2) acc2
    else (acc, calls)

/-- Model of `ClaimExtractor.extract` up to the final deduplication. -/
def claimExtractRaw (script : Nat → Chars) (maxG : Int) (fuel : Nat) :
    List Claim × Nat :=
  claimGleanLoop script maxG fuel 0 1 (parseClaimsOutput (script 0))

/-- Model of `ClaimExtractor.extract`: gleaning loop, then deduplication by
`claimKey h`. -/
def claimExtract (h : Chars → Int) (script : Nat → Chars) (maxG : Int) (fuel : Nat) :
    List Claim × Nat :=
  let r := claimExtractRaw script maxG fuel
  (dedupByKey (claimKey h) r.1, r.2)

/-! ## List infrastructure lemmas -/

lemma getLast?_append_right {x y : Chars} (h : y ≠ []) :
    (x ++ y).getLast? = y.getLast? := by
  rw [ List.getLast?_append]
  cases hy : y.getLast? with
  | some c => rfl
  | none => exact absurd (List.getLast?_eq_none_iff.mp hy) h

lemma head?_append_left {x : Chars} (y : Chars) (h : x ≠ []) :
    (x ++ y).head? = x.head? := by
  cases x with
  | nil => exact absurd rfl h
  | cons c t => rfl

lemma suffix_getLast? {a x : Chars} (h : a <:+ x) (ha : a ≠ []) :
    x.getLast? = a.getLast? := by
  obtain ⟨w, rfl⟩ := h
  exact getLast?_append_right ha

lemma prefix_head? {a y : Chars} (h : a <+: y) (ha : a ≠ []) :
    y.head? = a.head? := by
  obtain ⟨w, rfl⟩ := h
  exact (head?_append_left w ha).symm ▸ rfl

lemma prefix_append_cases {a x y : Chars} (h : a <+: x ++ y) :
    a <+: x ∨ ∃ a2, a = x ++ a2 ∧ a2 <+: y := by
  have htake := List.prefix_iff_eq_take.mp h
  rcases le_or_lt a.length x.length with hle | hlt
  · left
    rw [List.take_append_eq_append_take, Nat.sub_eq_zero_of_le hle, List.take_zero,
      List.append_nil] at htake
    exact htake ▸ List.take_prefix _ _
  · right
    refine ⟨y.take (a.length - x.length), ?_, List.take_prefix _ _⟩
    rw [List.take_append_eq_append_take, List.take_of_length_le (le_of_lt hlt)] at htake
    exact htake

lemma infix_append_cases {a : Chars} : ∀ {x y : Chars}, a <:+: x ++ y →
    a <:+: x ∨ a <:+: y ∨
      ∃ a₁ a₂, a = a₁ ++ a₂ ∧ a₁ ≠ [] ∧ a₂ ≠ [] ∧ a₁ <:+ x ∧ a₂ <+: y := by
  intro x
  induction x with
  | nil => intro y h; simp only [List.nil_append] at h; exact Or.inr (Or.inl h)
  | cons c x' ih =>
    intro y h
    rw [List.cons_append] at h
    rcases List.infix_cons_iff.mp h with hp | hi
    · rw [← List.cons_append] at hp
      rcases prefix_append_cases hp with h1 | ⟨a2, rfl, h2⟩
      · exact Or.inl h1.isInfix
      · rcases eq_or_ne a2 [] with rfl | ha2
        · rw [List.append_nil]; exact Or.inl (List.infix_rfl)
        · exact Or.inr (Or.inr ⟨c :: x', a2, rfl, List.cons_ne_nil c x', ha2,
            List.suffix_rfl, h2⟩)
    · rcases ih hi with h1 | h2 | ⟨a₁, a₂, rfl, h3, h4, h5, h6⟩
      · exact Or.inl (List.infix_cons h1)
      · exact Or.inr (Or.inl h2)
      · exact Or.inr (Or.inr ⟨a₁, a₂, rfl, h3, h4, h5.trans (List.suffix_cons c x'), h6⟩)

lemma not_infix_append_of {pat x y : Chars} (hx : ¬ pat <:+: x) (hy : ¬ pat <:+: y)
    (hj : ∀ a₁ a₂, a₁ ++ a₂ = pat → a₁ ≠ [] → a₂ ≠ [] → a₁ <:+ x → a₂ <+: y → False) :
    ¬ pat <:+: x ++ y := by
  intro h
  rcases infix_append_cases h with h1 | h2 | ⟨a₁, a₂, rfl, h3, h4, h5, h6⟩
  · exact hx h1
  · exact hy h2
  · exact hj a₁ a₂ rfl h3 h4 h5 h6

lemma not_infix_of_short {pat y : Chars} (h : y.length < pat.length) : ¬ pat <:+: y :=
  fun hi => absurd hi.length_le (not_le.mpr h)

lemma junction_refute_head {pat y : Chars}
    (hy : ∀ k, k < pat.length → 0 < k → y.head? ≠ pat[k]?) :
    ∀ (a₁ a₂ : Chars), a₁ ++ a₂ = pat → a₁ ≠ [] → a₂ ≠ [] → a₂ <+: y → False := by
  intro a₁ a₂ he h1 h2 hp
  have hd : a₂ = pat.drop a₁.length := by rw [← he, List.drop_left]
  have hk1 : 0 < a₁.length := List.length_pos.mpr h1
  have hk2 : a₁.length < pat.length := by
    have : pat.length = a₁.length + a₂.length := by rw [← he, List.length_append]
    have : 0 < a₂.length := List.length_pos.mpr h2
    omega
  have hh : y.head? = pat[a₁.length]? := by
    rw [prefix_head? hp h2, hd, List.head?_eq_getElem?, List.getElem?_drop, Nat.add_zero]
  exact hy a₁.length hk2 hk1 hh

lemma junction_refute_last {pat x : Chars}
    (hx : ∀ k, k < pat.length - 1 → x.getLast? ≠ pat[k]?) :
    ∀ (a₁ a₂ : Chars), a₁ ++ a₂ = pat → a₁ ≠ [] → a₂ ≠ [] → a₁ <:+ x → False := by
  intro a₁ a₂ he h1 h2 hs
  have ht : a₁ = pat.take a₁.length := by rw [← he, List.take_left]
  have hk1 : 0 < a₁.length := List.length_pos.mpr h1
  have hk2 : a₁.length < pat.length := by
    have : pat.length = a₁.length + a₂.length := by rw [← he, List.length_append]
    have : 0 < a₂.length := List.length_pos.mpr h2
    omega
  have hlast : x.getLast? = pat[a₁.length - 1]? := by
    rw [suffix_getLast? hs h1, ht, List.getLast?_eq_getElem?]
    rw [List.length_take, min_eq_left (le_of_lt hk2)]
    exact List.getElem?_take_of_lt (by omega)
  exact hx (a₁.length - 1) (by omega) hlast

lemma isPrefixOf_false_of_no_occurrence {sep l : Chars} (h : ¬ sep <:+: l) :
    sep.isPrefixOf l = false := by
  by_contra hb
  exact h (( List.isPrefixOf_iff_prefix.mp (by simpa using hb)).isInfix)

lemma not_infix_of_cons {sep : Chars} {c : Char} {l : Chars} (h : ¬ sep <:+: c :: l) :
    ¬ sep <:+: l := fun hi => h (List.infix_cons hi)

lemma splitOnFuel_no_occurrence (sep : Chars) :
    ∀ fuel l acc, l.length ≤ fuel → ¬ sep <:+: l →
      splitOnFuel sep fuel l acc = [acc.reverse ++ l] := by
  intro fuel
  induction fuel with
  | zero =>
    intro l acc hlen _
    rw [List.length_eq_zero.mp (Nat.le_zero.mp hlen)]
    simp [splitOnFuel]
  | succ fuel ih =>
    intro l acc hlen hinf
    cases l with
    | nil => simp [splitOnFuel]
    | cons c rest =>
      rw [splitOnFuel, isPrefixOf_false_of_no_occurrence hinf]
      simp only [Bool.false_eq_true, if_false]
      rw [ih rest (c :: acc) (by simp only [List.length_cons] at hlen; omega)
        (not_infix_of_cons hinf)]
      simp

lemma splitOnSep_no_occurrence {sep l : Chars} (h : ¬ sep <:+: l) :
    splitOnSep sep l = [l] := by
  rw [splitOnSep, splitOnFuel_no_occurrence sep l.length l [] le_rfl h]
  simp

lemma splitOnFuel_fuel_irrel {sep : Chars} (hsep : sep ≠ []) :
    ∀ f1 f2 l acc, l.length ≤ f1 → l.length ≤ f2 →
      splitOnFuel sep f1 l acc = splitOnFuel sep f2 l acc := by
  intro f1
  induction f1 with
  | zero =>
    intro f2 l acc h1 _
    rw [List.length_eq_zero.mp (Nat.le_zero.mp h1)]
    cases f2 <;> simp [splitOnFuel]
  | succ f1 ih =>
    intro f2 l acc h1 h2
    cases l with
    | nil => cases f2 <;> simp [splitOnFuel]
    | cons c rest =>
      cases f2 with
      | zero => simp at h2
      | succ f2 =>
        rw [splitOnFuel, splitOnFuel]
        by_cases hp : sep.isPrefixOf (c :: rest)
        · rw [hp]
          simp only [if_true]
          have hs : 0 < sep.length := List.length_pos.mpr hsep
          have hd : ((c :: rest).drop sep.length).length ≤ f1 := by
            simp only [List.length_drop, List.length_cons]
            simp only [List.length_cons] at h1
            omega
          have hd2 : ((c :: rest).drop sep.length).length ≤ f2 := by
            simp only [List.length_drop, List.length_cons]
            simp only [List.length_cons] at h2
            omega
          rw [ih f2 _ [] hd hd2]
        · simp only [hp]
          exact ih f2 rest (c :: acc) (by simp at h1; omega) (by simp at h2; omega)

lemma prefix_of_append_of_le {a x y : Chars} (h : a <+: x ++ y) (hlen : a.length ≤ x.length) :
    a <+: x := by
  rcases prefix_append_cases h with h1 | ⟨a2, rfl, _⟩
  · exact h1
  · rcases eq_or_ne a2 [] with rfl | ha2
    · simpa using List.prefix_rfl
    · exfalso
      have : 0 < a2.length := List.length_pos.mpr ha2
      rw [List.length_append] at hlen
      omega

lemma sep_not_prefix_mid {sep x y : Chars} (hxne : x ≠ [])
    (hx : ¬ sep <:+: (x ++ sep).dropLast) : sep.isPrefixOf (x ++ (sep ++ y)) = false := by
  by_contra hb
  have hp : sep <+: x ++ (sep ++ y) := List.isPrefixOf_iff_prefix.mp (by simpa using hb)
  rw [← List.append_assoc] at hp
  have hp2 : sep <+: x ++ sep :=
    prefix_of_append_of_le hp (by rw [List.length_append]; omega)
  have hxlen : 0 < x.length := List.length_pos.mpr hxne
  have hlen2 : sep.length ≤ (x ++ sep).length - 1 := by rw [List.length_append]; omega
  have he : sep = ((x ++ sep).take ((x ++ sep).length - 1)).take sep.length := by
    rw [List.take_take, min_eq_left hlen2]
    exact List.prefix_iff_eq_take.mp hp2
  have hp3 : sep <+: (x ++ sep).dropLast := by
    rw [List.dropLast_eq_take]
    have := List.take_prefix sep.length ((x ++ sep).take ((x ++ sep).length - 1))
    rw [← he] at this
    exact this
  exact hx hp3.isInfix

lemma dropLast_append_right {x y : Chars} (h : y ≠ []) :
    (x ++ y).dropLast = x ++ y.dropLast := by
  induction x with
  | nil => simp
  | cons c x' ih =>
    rw [List.cons_append, List.dropLast_cons_of_ne_nil (by simp [h]), ih, List.cons_append]

lemma splitOnFuel_append_sep {sep : Chars} (y : Chars) (hsep : sep ≠ []) :
    ∀ (x : Chars) (fuel : Nat) (acc : Chars), (x ++ (sep ++ y)).length ≤ fuel →
      ¬ sep <:+: (x ++ sep).dropLast →
      splitOnFuel sep fuel (x ++ (sep ++ y)) acc = (acc.reverse ++ x) :: splitOnSep sep y := by
  intro x
  induction x with
  | nil =>
    intro fuel acc hlen _
    simp only [List.nil_append] at hlen ⊢
    have hslen : 0 < sep.length := List.length_pos.mpr hsep
    cases fuel with
    | zero => rw [List.length_append] at hlen; omega
    | succ fuel =>
      cases sep with
      | nil => exact absurd rfl hsep
      | cons s0 sep' =>
        rw [List.cons_append, splitOnFuel, ← List.cons_append]
        rw [show (s0 :: sep').isPrefixOf ((s0 :: sep') ++ y) = true by
          simpa using List.isPrefixOf_iff_prefix.mpr (List.prefix_append (s0 :: sep') y)]
        simp only [if_true, List.drop_left]
        rw [splitOnFuel_fuel_irrel hsep fuel y.length y []
          (by rw [List.length_append] at hlen; simp only [List.length_cons] at hlen ⊢; omega)
          le_rfl]
        simp [splitOnSep]
  | cons c x' ih =>
    intro fuel acc hlen hx
    cases fuel with
    | zero => simp only [List.length_cons, List.cons_append] at hlen; omega
    | succ fuel =>
      rw [List.cons_append, splitOnFuel, ← List.cons_append,
        sep_not_prefix_mid (List.cons_ne_nil c x') hx]
      simp only [Bool.false_eq_true, if_false]
      have hx' : ¬ sep <:+: (x' ++ sep).dropLast := by
        intro hi
        apply hx
        rw [List.cons_append, List.dropLast_cons_of_ne_nil (by simp [hsep])]
        exact List.infix_cons hi
      rw [List.cons_append] at hlen
      rw [ih fuel (c :: acc) (by simp only [List.length_cons] at hlen; omega) hx']
      simp

lemma splitOnSep_append_sep {sep x y : Chars} (hsep : sep ≠ [])
    (hx : ¬ sep <:+: (x ++ sep).dropLast) :
    splitOnSep sep (x ++ (sep ++ y)) = x :: splitOnSep sep y := by
  rw [splitOnSep, splitOnFuel_append_sep y hsep x _ [] le_rfl hx]
  simp

lemma replaceFuel_id {pat repl : Chars} :
    ∀ (fuel : Nat) (l : Chars), ¬ pat <:+: l → replaceFuel pat repl fuel l = l := by
  intro fuel
  induction fuel with
  | zero => intro l _; cases l <;> rfl
  | succ fuel ih =>
    intro l hinf
    cases l with
    | nil => rfl
    | cons c rest =>
      rw [replaceFuel, isPrefixOf_false_of_no_occurrence hinf]
      simp only [Bool.false_eq_true, if_false]
      rw [ih rest (not_infix_of_cons hinf)]

lemma pyReplace_id {pat repl l : Chars} (h : ¬ pat <:+: l) : pyReplace pat repl l = l :=
  replaceFuel_id l.length l h

lemma dropWhile_id_of_head {p : Char → Bool} {l : Chars}
    (h : ∀ c, l.head? = some c → p c = false) : l.dropWhile p = l := by
  cases l with
  | nil => rfl
  | cons c t => rw [List.dropWhile_cons, h c rfl]; simp

lemma pyStrip_id {l : Chars} (hh : ∀ c, l.head? = some c → isPySpace c = false)
    (hl : ∀ c, l.getLast? = some c → isPySpace c = false) : pyStrip l = l := by
  rw [pyStrip, dropWhile_id_of_head hh, dropWhile_id_of_head
    (fun c hc => hl c (by rwa [← List.head?_reverse])), List.reverse_reverse]

lemma extractParenGroup_wrap {mid : Chars} (hmid : mid ≠ []) :
    extractParenGroup ('(' :: (mid ++ [')'])) = some mid := by
  rw [extractParenGroup]
  have hrev : ('(' :: (mid ++ [')'])).reverse = ')' :: (mid.reverse ++ ['(']) := by
    simp
  rw [hrev]
  simp only [List.takeWhile_cons, List.dropWhile_cons]
  norm_num
  cases mid with
  | nil => exact absurd rfl hmid
  | cons c t => rfl

/-! ## Rendering entity records (claims C2 and C9) -/

/-- The quoted kind tag of a rendered entity record. -/
def entityTag : Chars := "\"entity\"".data

/-- The fields of a rendered entity record, between the parentheses. -/
def entityInner (e : Entity) : Chars :=
  entityTag ++ (TUPLE_DELIMITER ++ (e.name ++ (TUPLE_DELIMITER ++ (e.type ++
    (TUPLE_DELIMITER ++ e.description)))))

/-- One entity rendered as `("entity"<|>name<|>type<|>description)`. -/
def renderEntity (e : Entity) : Chars := '(' :: (entityInner e ++ [')'])

/-- Records joined with the record delimiter (Python `"##".join(...)`). -/
def joinRecords : List Chars → Chars
  | [] => []
  | [c] => c
  | c :: rest => c ++ (RECORD_DELIMITER ++ joinRecords rest)

/-- A list of entities rendered and joined with the record delimiter. -/
def renderEntities (es : List Entity) : Chars := joinRecords (es.map renderEntity)

/-- A field is free of the three sentinel tokens ("contains none of the
record delimiter, the field delimiter or the completion marker"). -/
def SentinelFree (l : Chars) : Prop :=
  ¬ RECORD_DELIMITER <:+: l ∧ ¬ TUPLE_DELIMITER <:+: l ∧ ¬ COMPLETION_MARKER <:+: l

/-- An entity all of whose fields are whitespace-normalized and
sentinel-free. -/
def EntityWellFormed (e : Entity) : Prop :=
  cleanStr e.name = e.name ∧ cleanStr e.type = e.type ∧
    cleanStr e.description = e.description ∧
    SentinelFree e.name ∧ SentinelFree e.type ∧ SentinelFree e.description

instance (l : Chars) : Decidable (SentinelFree l) := by
  unfold SentinelFree; infer_instance

instance (e : Entity) : Decidable (EntityWellFormed e) := by
  unfold EntityWellFormed; infer_instance

lemma head_refuter {pat : Chars} {c : Char}
    (hpat : ∀ k, k < pat.length → 0 < k → pat[k]? ≠ some c)
    (y : Chars) (hc : y.head? = some c) (x : Chars) :
    ∀ (a₁ a₂ : Chars), a₁ ++ a₂ = pat → a₁ ≠ [] → a₂ ≠ [] → a₁ <:+ x → a₂ <+: y → False := by
  intro a₁ a₂ he h1 h2 _ hp
  exact junction_refute_head
    (fun k hk h0 => by rw [hc]; exact (hpat k hk h0).symm) a₁ a₂ he h1 h2 hp

lemma last_refuter {pat : Chars} {c : Char}
    (hpat : ∀ k, k < pat.length - 1 → pat[k]? ≠ some c)
    (x : Chars) (hc : x.getLast? = some c) (y : Chars) :
    ∀ (a₁ a₂ : Chars), a₁ ++ a₂ = pat → a₁ ≠ [] → a₂ ≠ [] → a₁ <:+ x → a₂ <+: y → False := by
  intro a₁ a₂ he h1 h2 hs _
  exact junction_refute_last
    (fun k hk => by rw [hc]; exact (hpat k hk).symm) a₁ a₂ he h1 h2 hs

lemma head?_TD_append (x : Chars) : (TUPLE_DELIMITER ++ x).head? = some '<' := by
  rw [head?_append_left x (by decide)]; rfl

lemma renderEntity_getLast? (e : Entity) : (renderEntity e).getLast? = some ')' := by
  have : renderEntity e = (['('] ++ entityInner e) ++ [')'] := by simp [renderEntity]
  rw [this, List.getLast?_concat]

/-- No occurrence of a pattern in a rendered entity record, given that it
does not occur in any field and cannot straddle the skeleton boundaries. -/
lemma not_infix_renderEntity {pat : Chars} {e : Entity}
    (hn : ¬ pat <:+: e.name) (ht : ¬ pat <:+: e.type) (hd : ¬ pat <:+: e.description)
    (hTag : ¬ pat <:+: entityTag) (hTD : ¬ pat <:+: TUPLE_DELIMITER)
    (hLP : ¬ pat <:+: ['(']) (hRP : ¬ pat <:+: [')'])
    (hjL : ∀ c, c ∈ ['(', Char.ofNat 34, '>'] → ∀ k, k < pat.length - 1 → pat[k]? ≠ some c)
    (hjH : ∀ c, c ∈ ['<', ')'] → ∀ k, k < pat.length → 0 < k → pat[k]? ≠ some c) :
    ¬ pat <:+: renderEntity e := by
  have h1 : ¬ pat <:+: e.description ++ [')'] :=
    not_infix_append_of hd hRP (head_refuter (hjH ')' (by simp)) [')'] rfl _)
  have h2 : ¬ pat <:+: TUPLE_DELIMITER ++ (e.description ++ [')']) :=
    not_infix_append_of hTD h1 (last_refuter (hjL '>' (by simp)) TUPLE_DELIMITER (by decide) _)
  have h3 : ¬ pat <:+: e.type ++ (TUPLE_DELIMITER ++ (e.description ++ [')'])) :=
    not_infix_append_of ht h2 (head_refuter (hjH '<' (by simp)) _ (head?_TD_append _) _)
  have h4 : ¬ pat <:+: TUPLE_DELIMITER ++ (e.type ++ (TUPLE_DELIMITER ++ (e.description ++ [')']))) :=
    not_infix_append_of hTD h3 (last_refuter (hjL '>' (by simp)) TUPLE_DELIMITER (by decide) _)
  have h5 : ¬ pat <:+: e.name ++ (TUPLE_DELIMITER ++ (e.type ++ (TUPLE_DELIMITER ++ (e.description ++ [')'])))) :=
    not_infix_append_of hn h4 (head_refuter (hjH '<' (by simp)) _ (head?_TD_append _) _)
  have h6 : ¬ pat <:+: TUPLE_DELIMITER ++ (e.name ++ (TUPLE_DELIMITER ++ (e.type ++ (TUPLE_DELIMITER ++ (e.description ++ [')']))))) :=
    not_infix_append_of hTD h5 (last_refuter (hjL '>' (by simp)) TUPLE_DELIMITER (by decide) _)
  have h7 : ¬ pat <:+: entityTag ++ (TUPLE_DELIMITER ++ (e.name ++ (TUPLE_DELIMITER ++ (e.type ++ (TUPLE_DELIMITER ++ (e.description ++ [')'])))))) :=
    not_infix_append_of hTag h6
      (last_refuter (hjL (Char.ofNat 34) (by simp)) entityTag (by decide) _)
  have h8 : ¬ pat <:+: ['('] ++ (entityTag ++ (TUPLE_DELIMITER ++ (e.name ++ (TUPLE_DELIMITER ++ (e.type ++ (TUPLE_DELIMITER ++ (e.description ++ [')']))))))) :=
    not_infix_append_of hLP h7 (last_refuter (hjL '(' (by simp)) ['('] rfl _)
  intro hi
  apply h8
  have hshape : renderEntity e =
      ['('] ++ (entityTag ++ (TUPLE_DELIMITER ++ (e.name ++ (TUPLE_DELIMITER ++
        (e.type ++ (TUPLE_DELIMITER ++ (e.description ++ [')']))))))) := by
    simp [renderEntity, entityInner, List.append_assoc]
  rwa [hshape] at hi

/-- The record delimiter does not occur in a rendered entity record whose
fields are free of it. -/
lemma not_RD_renderEntity {e : Entity} (hn : ¬ RECORD_DELIMITER <:+: e.name)
    (ht : ¬ RECORD_DELIMITER <:+: e.type) (hd : ¬ RECORD_DELIMITER <:+: e.description) :
    ¬ RECORD_DELIMITER <:+: renderEntity e :=
  not_infix_renderEntity hn ht hd (by decide) (by decide) (by decide) (by decide)
    (by decide) (by decide)

/-- The completion marker does not occur in a rendered entity record whose
fields are free of it. -/
lemma not_CM_renderEntity {e : Entity} (hn : ¬ COMPLETION_MARKER <:+: e.name)
    (ht : ¬ COMPLETION_MARKER <:+: e.type) (hd : ¬ COMPLETION_MARKER <:+: e.description) :
    ¬ COMPLETION_MARKER <:+: renderEntity e :=
  not_infix_renderEntity hn ht hd (by decide) (by decide) (by decide) (by decide)
    (by decide) (by decide)

lemma TD_dropLast_append {x : Chars} (hx : ¬ TUPLE_DELIMITER <:+: x) :
    ¬ TUPLE_DELIMITER <:+: (x ++ TUPLE_DELIMITER).dropLast := by
  rw [dropLast_append_right (by decide),
    show TUPLE_DELIMITER.dropLast = ['<', '|'] by decide]
  exact not_infix_append_of hx (not_infix_of_short (by decide))
    (head_refuter (show ∀ k, k < TUPLE_DELIMITER.length → 0 < k →
        TUPLE_DELIMITER[k]? ≠ some '<' by decide) ['<', '|'] rfl _)

lemma splitTD_entityInner (e : Entity) (hn : ¬ TUPLE_DELIMITER <:+: e.name)
    (ht : ¬ TUPLE_DELIMITER <:+: e.type) (hd : ¬ TUPLE_DELIMITER <:+: e.description) :
    splitOnSep TUPLE_DELIMITER (entityInner e) =
      [entityTag, e.name, e.type, e.description] := by
  rw [entityInner, splitOnSep_append_sep (by decide) (by decide),
    splitOnSep_append_sep (by decide) (TD_dropLast_append hn),
    splitOnSep_append_sep (by decide) (TD_dropLast_append ht),
    splitOnSep_no_occurrence hd]

lemma entityInner_ne_nil (e : Entity) : entityInner e ≠ [] := by
  rw [entityInner, entityTag]
  simp

lemma pyStrip_renderEntity (e : Entity) : pyStrip (renderEntity e) = renderEntity e := by
  apply pyStrip_id
  · intro c hc
    rw [renderEntity] at hc
    simp only [List.head?_cons, Option.some_inj] at hc
    rw [← hc]; decide
  · intro c hc
    rw [renderEntity_getLast?] at hc
    simp only [Option.some_inj] at hc
    rw [← hc]; decide

lemma parseGraphRecord_renderEntity (e : Entity) (hn : ¬ TUPLE_DELIMITER <:+: e.name)
    (ht : ¬ TUPLE_DELIMITER <:+: e.type) (hd : ¬ TUPLE_DELIMITER <:+: e.description) :
    parseGraphRecord (renderEntity e) =
      some (Sum.inl ⟨cleanStr e.name, cleanStr e.type, cleanStr e.description⟩) := by
  unfold parseGraphRecord
  rw [pyStrip_renderEntity]
  rw [show renderEntity e = '(' :: (entityInner e ++ [')']) from rfl]
  simp only [List.isEmpty_cons, Bool.false_eq_true, if_false,
    extractParenGroup_wrap (entityInner_ne_nil e), splitTD_entityInner e hn ht hd,
    show stripQuotes ((cleanStr entityTag).map Char.toLower) = "entity".data by decide]
  simp

lemma entityOfRecord_renderEntity (e : Entity) (hn : ¬ TUPLE_DELIMITER <:+: e.name)
    (ht : ¬ TUPLE_DELIMITER <:+: e.type) (hd : ¬ TUPLE_DELIMITER <:+: e.description) :
    entityOfRecord (renderEntity e) =
      some ⟨cleanStr e.name, cleanStr e.type, cleanStr e.description⟩ := by
  rw [entityOfRecord, parseGraphRecord_renderEntity e hn ht hd]

lemma relationshipOfRecord_renderEntity (e : Entity) (hn : ¬ TUPLE_DELIMITER <:+: e.name)
    (ht : ¬ TUPLE_DELIMITER <:+: e.type) (hd : ¬ TUPLE_DELIMITER <:+: e.description) :
    relationshipOfRecord (renderEntity e) = none := by
  rw [relationshipOfRecord, parseGraphRecord_renderEntity e hn ht hd]

lemma not_RD_chunk_hash {e : Entity} (h : ¬ RECORD_DELIMITER <:+: renderEntity e) :
    ¬ RECORD_DELIMITER <:+: (renderEntity e ++ RECORD_DELIMITER).dropLast := by
  rw [dropLast_append_right (by decide), show RECORD_DELIMITER.dropLast = ['#'] by decide]
  exact not_infix_append_of h (not_infix_of_short (by decide))
    (last_refuter (show ∀ k, k < RECORD_DELIMITER.length - 1 →
        RECORD_DELIMITER[k]? ≠ some ')' by decide)
      (renderEntity e) (renderEntity_getLast? e) _)

lemma joinRecords_cons₂ (a b : Chars) (l : List Chars) :
    joinRecords (a :: b :: l) = a ++ (RECORD_DELIMITER ++ joinRecords (b :: l)) := rfl

lemma head?_RD_append (x : Chars) : (RECORD_DELIMITER ++ x).head? = some '#' := by
  rw [head?_append_left x (by decide)]; rfl

lemma sentinelFree_of_wf {e : Entity} (h : EntityWellFormed e) :
    (¬ RECORD_DELIMITER <:+: e.name ∧ ¬ RECORD_DELIMITER <:+: e.type ∧
      ¬ RECORD_DELIMITER <:+: e.description) ∧
    (¬ TUPLE_DELIMITER <:+: e.name ∧ ¬ TUPLE_DELIMITER <:+: e.type ∧
      ¬ TUPLE_DELIMITER <:+: e.description) ∧
    (¬ COMPLETION_MARKER <:+: e.name ∧ ¬ COMPLETION_MARKER <:+: e.type ∧
      ¬ COMPLETION_MARKER <:+: e.description) :=
  ⟨⟨h.2.2.2.1.1, h.2.2.2.2.1.1, h.2.2.2.2.2.1⟩,
   ⟨h.2.2.2.1.2.1, h.2.2.2.2.1.2.1, h.2.2.2.2.2.2.1⟩,
   ⟨h.2.2.2.1.2.2, h.2.2.2.2.1.2.2, h.2.2.2.2.2.2.2⟩⟩

lemma not_CM_blob : ∀ es : List Entity, (∀ e ∈ es, EntityWellFormed e) →
    ¬ COMPLETION_MARKER <:+: renderEntities es := by
  intro es
  induction es with
  | nil =>
    intro _
    rw [renderEntities, List.map_nil]
    exact not_infix_of_short (by decide)
  | cons e rest ih =>
    intro h
    have hwf := sentinelFree_of_wf (h e (List.mem_cons_self e rest))
    have hchunk : ¬ COMPLETION_MARKER <:+: renderEntity e :=
      not_CM_renderEntity hwf.2.2.1 hwf.2.2.2.1 hwf.2.2.2.2
    cases rest with
    | nil => rw [renderEntities]; simpa [joinRecords] using hchunk
    | cons e2 rest2 =>
      rw [renderEntities, List.map_cons, List.map_cons, joinRecords_cons₂]
      have hrest : ¬ COMPLETION_MARKER <:+: renderEntities (e2 :: rest2) :=
        ih (fun x hx => h x (List.mem_cons_of_mem e hx))
      rw [renderEntities, List.map_cons] at hrest
      refine not_infix_append_of hchunk (not_infix_append_of (not_infix_of_short (by decide))
        hrest (last_refuter (show ∀ k, k < COMPLETION_MARKER.length - 1 →
          COMPLETION_MARKER[k]? ≠ some '#' by decide) RECORD_DELIMITER (by decide) _)) ?_
      exact head_refuter (show ∀ k, k < COMPLETION_MARKER.length → 0 < k →
          COMPLETION_MARKER[k]? ≠ some '#' by decide) _ (head?_RD_append _) _

lemma splitRD_blob : ∀ (es : List Entity) (e : Entity), (∀ x ∈ e :: es, EntityWellFormed x) →
    splitOnSep RECORD_DELIMITER (renderEntities (e :: es)) = (e :: es).map renderEntity := by
  intro es
  induction es with
  | nil =>
    intro e h
    have hwf := sentinelFree_of_wf (h e (List.mem_cons_self e []))
    rw [renderEntities, List.map_cons, List.map_nil]
    exact splitOnSep_no_occurrence (not_RD_renderEntity hwf.1.1 hwf.1.2.1 hwf.1.2.2)
  | cons e2 rest ih =>
    intro e h
    have hwf := sentinelFree_of_wf (h e (List.mem_cons_self e (e2 :: rest)))
    rw [renderEntities, List.map_cons, List.map_cons, joinRecords_cons₂,
      splitOnSep_append_sep (by decide)
        (not_RD_chunk_hash (not_RD_renderEntity hwf.1.1 hwf.1.2.1 hwf.1.2.2))]
    have := ih e2 (fun x hx => h x (List.mem_cons_of_mem e hx))
    rw [renderEntities, List.map_cons] at this
    rw [this]

lemma blob_getLast? : ∀ (es : List Entity) (e : Entity),
    (renderEntities (e :: es)).getLast? = some ')' := by
  intro es
  induction es with
  | nil => intro e; rw [renderEntities, List.map_cons, List.map_nil]; exact renderEntity_getLast? e
  | cons e2 rest ih =>
    intro e
    rw [renderEntities, List.map_cons, List.map_cons, joinRecords_cons₂]
    have hne : joinRecords (renderEntity e2 :: rest.map renderEntity) ≠ [] := by
      cases rest with
      | nil => simp [joinRecords, renderEntity]
      | cons a b => simp [joinRecords, renderEntity]
    rw [getLast?_append_right (by simp [hne]), getLast?_append_right hne]
    have := ih e2
    rwa [renderEntities, List.map_cons] at this

lemma pyStrip_blob (e : Entity) (es : List Entity) :
    pyStrip (renderEntities (e :: es)) = renderEntities (e :: es) := by
  apply pyStrip_id
  · intro c hc
    have hhead : (renderEntities (e :: es)).head? = some '(' := by
      cases es with
      | nil =>
        rw [renderEntities, List.map_cons, List.map_nil]
        rfl
      | cons e2 rest =>
        rw [renderEntities, List.map_cons, List.map_cons, joinRecords_cons₂,
          head?_append_left _ (by simp [renderEntity])]
        rfl
    rw [hhead] at hc
    simp only [Option.some_inj] at hc
    rw [← hc]; decide
  · intro c hc
    rw [blob_getLast? es e] at hc
    simp only [Option.some_inj] at hc
    rw [← hc]; decide

lemma filterMap_renderEntities : ∀ es : List Entity, (∀ e ∈ es, EntityWellFormed e) →
    (es.map renderEntity).filterMap entityOfRecord = es ∧
    (es.map renderEntity).filterMap relationshipOfRecord = [] := by
  intro es
  induction es with
  | nil => intro _; simp
  | cons e rest ih =>
    intro h
    have hwf := h e (List.mem_cons_self e rest)
    have hsf := sentinelFree_of_wf hwf
    have hrec := ih (fun x hx => h x (List.mem_cons_of_mem e hx))
    rw [List.map_cons, List.filterMap_cons, List.filterMap_cons,
      entityOfRecord_renderEntity e hsf.2.1.1 hsf.2.1.2.1 hsf.2.1.2.2,
      relationshipOfRecord_renderEntity e hsf.2.1.1 hsf.2.1.2.1 hsf.2.1.2.2]
    rw [hwf.1, hwf.2.1, hwf.2.2.1]
    exact ⟨by rw [hrec.1], hrec.2⟩

set_option maxRecDepth 200000

/-- The example blob of the spec (§8): one entity record, one relationship
record, the record delimiter between them, the completion marker at the
end. -/
def exampleBlob : Chars :=
  "(\"entity\"<|>APPLE INC<|>ORGANIZATION<|>Tech company)\n##\n(\"relationship\"<|>STEVE JOBS<|>APPLE INC<|>Founded<|>9)\n<|COMPLETE|>".data

/-- C9: rendering whitespace-normalized, sentinel-free entities and parsing
the result reproduces them in order, with no relationships. -/
theorem C9_render_parse_roundtrip (es : List Entity) (h : ∀ e ∈ es, EntityWellFormed e) :
    parseGraphOutput (renderEntities es) = (es, []) := by
  cases es with
  | nil => decide
  | cons e rest =>
    have hchunks : recordChunks (renderEntities (e :: rest)) = (e :: rest).map renderEntity := by
      rw [recordChunks, pyReplace_id (not_CM_blob _ h), pyStrip_blob e rest,
        splitRD_blob rest e h]
    rw [parseGraphOutput, hchunks]
    have hfm := filterMap_renderEntities (e :: rest) h
    rw [hfm.1, hfm.2]

/-- C9 witness at a concrete entity list. -/
theorem C9_witness :
    parseGraphOutput (renderEntities
      [⟨"APPLE INC".data, "ORGANIZATION".data, "Tech company".data⟩,
       ⟨"STEVE JOBS".data, "PERSON".data, "Founder".data⟩]) =
    ([⟨"APPLE INC".data, "ORGANIZATION".data, "Tech company".data⟩,
      ⟨"STEVE JOBS".data, "PERSON".data, "Founder".data⟩], []) :=
  C9_render_parse_roundtrip _ (by decide)

/-- C2: a blob holding one well-formed entity record parses to exactly one
entity whose fields are the whitespace-normalized NAME/TYPE/DESC, and the
spec's example blob parses to exactly the one entity and one relationship
(weight 9.0) it lists. -/
theorem C2_entity_record_and_example (NAME TYPE DESC : Chars)
    (hn : SentinelFree NAME) (ht : SentinelFree TYPE) (hd : SentinelFree DESC) :
    parseGraphOutput (renderEntity ⟨NAME, TYPE, DESC⟩) =
      ([⟨cleanStr NAME, cleanStr TYPE, cleanStr DESC⟩], []) ∧
    parseGraphOutput exampleBlob =
      ([⟨"APPLE INC".data, "ORGANIZATION".data, "Tech company".data⟩],
       [⟨"STEVE JOBS".data, "APPLE INC".data, "Founded".data, PyFloat.finite 9⟩]) := by
  constructor
  · have hchunks : recordChunks (renderEntity ⟨NAME, TYPE, DESC⟩) =
        [renderEntity ⟨NAME, TYPE, DESC⟩] := by
      rw [recordChunks, pyReplace_id (not_CM_renderEntity hn.2.2 ht.2.2 hd.2.2),
        pyStrip_renderEntity, splitOnSep_no_occurrence (not_RD_renderEntity hn.1 ht.1 hd.1)]
    rw [parseGraphOutput, hchunks]
    simp [List.filterMap_cons,
      entityOfRecord_renderEntity ⟨NAME, TYPE, DESC⟩ hn.2.1 ht.2.1 hd.2.1,
      relationshipOfRecord_renderEntity ⟨NAME, TYPE, DESC⟩ hn.2.1 ht.2.1 hd.2.1]
  · decide

/-- C2 witness at concrete field values. -/
theorem C2_witness :
    parseGraphOutput (renderEntity ⟨"Apple  Inc".data, "ORG".data, " Tech co ".data⟩) =
      ([⟨cleanStr "Apple  Inc".data, cleanStr "ORG".data, cleanStr " Tech co ".data⟩], []) ∧
    parseGraphOutput exampleBlob =
      ([⟨"APPLE INC".data, "ORGANIZATION".data, "Tech company".data⟩],
       [⟨"STEVE JOBS".data, "APPLE INC".data, "Founded".data, PyFloat.finite 9⟩]) :=
  C2_entity_record_and_example "Apple  Inc".data "ORG".data " Tech co ".data
    (by decide) (by decide) (by decide)

/-! ## Claim C1: credential resolution (`client.py`) -/

/-- Modelled from the amended spec wording: the environment part of the
credential precedence.  When the provider is detected, only that provider's
environment variable is consulted (truthy value required); only when no
provider is detected does the any-available-credential fallback run. -/
def envResolveSpec (env : EnvMap) (model : Chars) : Option Chars :=
  match detectProvider model with
  | some p =>
    match PROVIDER_CONFIG.find? (fun e => e.provider = p) with
    | some entry =>
      match env entry.envVar with
      | some k => if k.isEmpty then none else some k
      | none => none
    | none => none
  | none => fallbackEnvKey env

/-- Modelled from the amended spec wording: full precedence — a truthy
explicit key first, otherwise the environment resolution above. -/
def resolveCredentialSpec (env : EnvMap) (model : Chars) (apiKey : Option Chars) :
    Option Chars :=
  match apiKey with
  | some k => if k.isEmpty then envResolveSpec env model else some k
  | none => envResolveSpec env model

lemma fallbackEnvKey_truthy {env : EnvMap} {k : Chars} (h : fallbackEnvKey env = some k) :
    k.isEmpty = false := by
  rw [fallbackEnvKey] at h
  obtain ⟨a, _, ha⟩ := List.exists_of_findSome?_eq_some h
  cases he : env a.envVar with
  | none => rw [he] at ha; exact absurd ha (by simp)
  | some k1 =>
    rw [he] at ha
    dsimp only at ha
    by_cases h1 : k1.isEmpty
    · rw [if_pos h1] at ha; exact absurd ha (by simp)
    · rw [if_neg h1] at ha
      simp only [Option.some_inj] at ha
      rw [← ha]
      simpa using h1

lemma detect_find {model : Chars} {p : Chars} (h : detectProvider model = some p) :
    ∃ entry, PROVIDER_CONFIG.find? (fun e => e.provider = p) = some entry := by
  rw [detectProvider] at h
  simp only [Option.map_eq_some'] at h
  obtain ⟨q, hq, hp⟩ := h
  have hmem : q ∈ PROVIDER_CONFIG := List.mem_of_find?_eq_some hq
  subst hp
  rw [PROVIDER_CONFIG] at hmem
  simp only [List.mem_cons, List.not_mem_nil, or_false] at hmem
  rcases hmem with rfl | rfl | rfl
  · exact ⟨_, rfl⟩
  · exact ⟨_, rfl⟩
  · exact ⟨_, rfl⟩

lemma mkKey_env_eq (env : EnvMap) (model : Chars) :
    (match getApiKeyForProvider env (detectProvider model) with
     | some k => if k.isEmpty then none else some (⟨model, detectProvider model, k⟩ : LLMClient)
     | none => none) =
    (envResolveSpec env model).map
      (fun k => (⟨model, detectProvider model, k⟩ : LLMClient)) := by
  rw [getApiKeyForProvider.eq_def, envResolveSpec.eq_def]
  cases hdet : detectProvider model with
  | none =>
    dsimp only
    cases hf : fallbackEnvKey env with
    | none => rfl
    | some k => dsimp only; rw [fallbackEnvKey_truthy hf]; rfl
  | some p =>
    dsimp only
    obtain ⟨entry, hfind⟩ := detect_find hdet
    rw [hfind]
    dsimp only
    cases he : env entry.envVar with
    | none => rfl
    | some k =>
      dsimp only
      by_cases hk : k.isEmpty
      · rw [if_pos hk, if_pos hk]; rfl
      · rw [if_neg hk, if_neg hk]; rfl

/-- C1 (amended): `LLMClient.__init__` succeeds with exactly the credential
given by the amended precedence — a truthy explicit key; else, when the
provider is detected, that provider's env var only (truthy value required);
else, when no provider is detected, the first truthy provider env var — and
raises (returns `none`) exactly when this precedence resolves no truthy
credential. -/
theorem C1_amended_credential_precedence (env : EnvMap) (model : Chars)
    (apiKey : Option Chars) :
    mkLLMClient env model apiKey =
      (resolveCredentialSpec env model apiKey).map
        (fun k => (⟨model, detectProvider model, k⟩ : LLMClient)) := by
  rw [mkLLMClient.eq_def, resolveCredentialSpec.eq_def]
  cases apiKey with
  | none => exact mkKey_env_eq env model
  | some k =>
    dsimp only
    by_cases hk : k.isEmpty
    · rw [if_pos hk, if_pos hk]
      exact mkKey_env_eq env model
    · rw [if_neg hk, if_neg hk]
      dsimp only
      rw [if_neg hk]
      rfl

/-- The environment of the C1 counterexample: only the Anthropic credential
is set. -/
def envC1 : EnvMap := fun v =>
  if v = "ANTHROPIC_API_KEY".data then some "sk-test".data else none

/-- C1 counterexample: for model "gpt-4" the provider is detected (openai),
its env var is unset, another provider's credential is set — yet
construction raises (`none`), where the claim says it succeeds. -/
theorem C1_counterexample :
    detectProvider "gpt-4".data = some "openai".data ∧
    envC1 "OPENAI_API_KEY".data = none ∧
    envC1 "ANTHROPIC_API_KEY".data = some "sk-test".data ∧
    mkLLMClient envC1 "gpt-4".data none = none := by
  refine ⟨by decide, by decide, by decide, ?_⟩
  decide

/-! ## Deduplication lemmas (claims C4 and C10) -/

lemma dedupAux_mem {α κ : Type} [DecidableEq κ] (key : α → κ) :
    ∀ (seen : List κ) (l : List α) (x : α), x ∈ dedupAux key seen l →
      x ∈ l ∧ key x ∉ seen := by
  intro seen l
  induction l generalizing seen with
  | nil => intro x hx; simp [dedupAux] at hx
  | cons y rest ih =>
    intro x hx
    by_cases h : key y ∈ seen
    · rw [dedupAux, if_pos h] at hx
      obtain ⟨h1, h2⟩ := ih seen x hx
      exact ⟨List.mem_cons_of_mem y h1, h2⟩
    · rw [dedupAux, if_neg h] at hx
      rcases List.mem_cons.mp hx with rfl | hx2
      · exact ⟨List.mem_cons_self x rest, h⟩
      · obtain ⟨h1, h2⟩ := ih (key y :: seen) x hx2
        exact ⟨List.mem_cons_of_mem y h1, fun hc => h2 (List.mem_cons_of_mem _ hc)⟩

lemma dedupAux_pairwise_keys {α κ : Type} [DecidableEq κ] (key : α → κ) :
    ∀ (seen : List κ) (l : List α),
      (dedupAux key seen l).Pairwise (fun a b => key a ≠ key b) := by
  intro seen l
  induction l generalizing seen with
  | nil => simp [dedupAux]
  | cons y rest ih =>
    by_cases h : key y ∈ seen
    · rw [dedupAux, if_pos h]; exact ih seen
    · rw [dedupAux, if_neg h]
      refine List.Pairwise.cons ?_ (ih (key y :: seen))
      intro b hb
      have hnb := (dedupAux_mem key (key y :: seen) rest b hb).2
      exact fun hc => hnb (by rw [← hc]; exact List.mem_cons_self _ _)

lemma dedupAux_find? {α κ : Type} [DecidableEq κ] (key : α → κ) :
    ∀ (seen : List κ) (l : List α) (x : α), x ∈ dedupAux key seen l →
      l.find? (fun y => key y = key x) = some x := by
  intro seen l
  induction l generalizing seen with
  | nil => intro x hx; simp [dedupAux] at hx
  | cons y rest ih =>
    intro x hx
    by_cases h : key y ∈ seen
    · rw [dedupAux, if_pos h] at hx
      have hxs := (dedupAux_mem key seen rest x hx).2
      have hne : key y ≠ key x := fun hc => hxs (by rw [← hc]; exact h)
      rw [List.find?_cons_of_neg _ (by simpa using hne), ih seen x hx]
    · rw [dedupAux, if_neg h] at hx
      rcases List.mem_cons.mp hx with rfl | hx2
      · rw [List.find?_cons_of_pos _ (by simp)]
      · have hxs := (dedupAux_mem key (key y :: seen) rest x hx2).2
        have hne : key y ≠ key x := fun hc => hxs (by rw [← hc]; exact List.mem_cons_self _ _)
        rw [List.find?_cons_of_neg _ (by simpa using hne), ih _ x hx2]

lemma dedupAux_sublist {α κ : Type} [DecidableEq κ] (key : α → κ) :
    ∀ (seen : List κ) (l : List α), List.Sublist (dedupAux key seen l) l := by
  intro seen l
  induction l generalizing seen with
  | nil => simp [dedupAux]
  | cons y rest ih =>
    by_cases h : key y ∈ seen
    · rw [dedupAux, if_pos h]
      exact (ih seen).trans (List.sublist_cons_self y rest)
    · rw [dedupAux, if_neg h]
      exact (ih (key y :: seen)).cons₂ y

lemma dedupAux_pairwise_firstIdx {α κ : Type} [DecidableEq κ] (key : α → κ) :
    ∀ (seen : List κ) (l : List α),
      (dedupAux key seen l).Pairwise (fun a b =>
        l.findIdx (fun y => key y = key a) < l.findIdx (fun y => key y = key b)) := by
  intro seen l
  induction l generalizing seen with
  | nil => simp [dedupAux]
  | cons y rest ih =>
    by_cases h : key y ∈ seen
    · rw [dedupAux, if_pos h]
      refine List.Pairwise.imp_of_mem ?_ (ih seen)
      intro a b ha hb hlt
      have hna : key y ≠ key a :=
        fun hc => (dedupAux_mem key seen rest a ha).2 (by rw [← hc]; exact h)
      have hnb : key y ≠ key b :=
        fun hc => (dedupAux_mem key seen rest b hb).2 (by rw [← hc]; exact h)
      rw [List.findIdx_cons, List.findIdx_cons, decide_eq_false hna, decide_eq_false hnb]
      simp only [Bool.cond_false]
      omega
    · rw [dedupAux, if_neg h]
      refine List.Pairwise.cons ?_ ?_
      · intro b hb
        have hnb : key y ≠ key b :=
          fun hc => (dedupAux_mem key (key y :: seen) rest b hb).2
            (by rw [← hc]; exact List.mem_cons_self _ _)
        rw [List.findIdx_cons, List.findIdx_cons, decide_eq_true (Eq.refl (key y)),
          decide_eq_false hnb]
        simp only [Bool.cond_false, Bool.cond_true]
        omega
      · refine List.Pairwise.imp_of_mem ?_ (ih (key y :: seen))
        intro a b ha hb hlt
        have hna : key y ≠ key a :=
          fun hc => (dedupAux_mem key (key y :: seen) rest a ha).2
            (by rw [← hc]; exact List.mem_cons_self _ _)
        have hnb : key y ≠ key b :=
          fun hc => (dedupAux_mem key (key y :: seen) rest b hb).2
            (by rw [← hc]; exact List.mem_cons_self _ _)
        rw [List.findIdx_cons, List.findIdx_cons, decide_eq_false hna, decide_eq_false hnb]
        simp only [Bool.cond_false]
        omega

/-! ## Gleaning-loop lemmas (claim C3) -/

lemma graphGleanLoop_zero (script : Nat → Chars) (fuel calls : Nat)
    (acc : List Entity × List Relationship) :
    graphGleanLoop script 0 fuel 0 calls acc = (acc, calls) := by
  cases fuel with
  | zero => rfl
  | succ fuel =>
    rw [graphGleanLoop, if_neg (by simp)]

lemma graphGleanLoop_calls_le (script : Nat → Chars) (N : Nat) :
    ∀ (fuel iter calls : Nat) (acc : List Entity × List Relationship),
      (graphGleanLoop script (N : Int) fuel iter calls acc).2 ≤ calls + 2 * (N - iter) := by
  intro fuel
  induction fuel with
  | zero => intro iter calls acc; rw [graphGleanLoop]; omega
  | succ fuel ih =>
    intro iter calls acc
    rw [graphGleanLoop]
    by_cases hcond : ((N : Int) < 0 ∨ (iter : Int) < (N : Int))
    · rw [if_pos hcond]
      have hiter : iter < N := by rcases hcond with h | h <;> omega
      dsimp only
      by_cases hn : startsWithN (script (calls + 1)) = true
      · rw [if_pos hn]; dsimp only; omega
      · rw [if_neg hn]
        have happ := ih (iter + 1) (calls + 2)
          (acc.1 ++ (parseGraphOutput (script calls)).1,
           acc.2 ++ (parseGraphOutput (script calls)).2)
        calc _ ≤ (calls + 2) + 2 * (N - (iter + 1)) := happ
        _ ≤ calls + 2 * (N - iter) := by omega
    · rw [if_neg hcond]; omega

lemma graphGleanLoop_earlyStop (script : Nat → Chars) (maxG : Int) (i : Nat)
    (hN : startsWithN (script (2 * i + 2)) = true) :
    ∀ (fuel iter : Nat) (acc : List Entity × List Relationship), iter ≤ i →
      (graphGleanLoop script maxG fuel iter (2 * iter + 1) acc).2 ≤ 2 * i + 3 := by
  intro fuel
  induction fuel with
  | zero => intro iter acc hle; rw [graphGleanLoop]; omega
  | succ fuel ih =>
    intro iter acc hle
    rw [graphGleanLoop]
    by_cases hcond : (maxG < 0 ∨ (iter : Int) < maxG)
    · rw [if_pos hcond]
      dsimp only
      by_cases hn : startsWithN (script (2 * iter + 1 + 1)) = true
      · rw [if_pos hn]; dsimp only; omega
      · rw [if_neg hn]
        have hne : iter ≠ i := by
          intro hc
          subst hc
          rw [show 2 * iter + 1 + 1 = 2 * iter + 2 by omega] at hn
          exact hn hN
        rw [show 2 * iter + 1 + 2 = 2 * (iter + 1) + 1 by omega]
        exact ih (iter + 1) _ (by omega)
    · rw [if_neg hcond]; omega

lemma graphGleanLoop_fuel_irrel (script : Nat → Chars) (N : Nat) :
    ∀ (f1 f2 iter calls : Nat) (acc : List Entity × List Relationship),
      N ≤ iter + f1 → N ≤ iter + f2 →
      graphGleanLoop script (N : Int) f1 iter calls acc =
        graphGleanLoop script (N : Int) f2 iter calls acc := by
  intro f1
  induction f1 with
  | zero =>
    intro f2 iter calls acc h1 h2
    have hcond : ¬ ((N : Int) < 0 ∨ (iter : Int) < (N : Int)) := by
      push_neg
      constructor <;> omega
    cases f2 with
    | zero => rfl
    | succ f2 =>
      conv_rhs => rw [graphGleanLoop]
      rw [if_neg hcond, graphGleanLoop]
  | succ f1 ih =>
    intro f2 iter calls acc h1 h2
    by_cases hcond : ((N : Int) < 0 ∨ (iter : Int) < (N : Int))
    · have hiter : iter < N := by rcases hcond with h | h <;> omega
      cases f2 with
      | zero => exfalso; omega
      | succ f2 =>
        conv_lhs => rw [graphGleanLoop]
        conv_rhs => rw [graphGleanLoop]
        rw [if_pos hcond, if_pos hcond]
        dsimp only
        by_cases hn : startsWithN (script (calls + 1)) = true
        · rw [if_pos hn, if_pos hn]
        · rw [if_neg hn, if_neg hn]
          apply ih <;> omega
    · cases f2 with
      | zero =>
        conv_lhs => rw [graphGleanLoop]
        rw [if_neg hcond, graphGleanLoop]
      | succ f2 =>
        conv_lhs => rw [graphGleanLoop]
        conv_rhs => rw [graphGleanLoop]
        rw [if_neg hcond, if_neg hcond]

lemma claimGleanLoop_zero (script : Nat → Chars) (fuel calls : Nat) (acc : List Claim) :
    claimGleanLoop script 0 fuel 0 calls acc = (acc, calls) := by
  cases fuel with
  | zero => rfl
  | succ fuel =>
    rw [claimGleanLoop, if_neg (by simp)]

lemma claimGleanLoop_calls_le (script : Nat → Chars) (N : Nat) :
    ∀ (fuel iter calls : Nat) (acc : List Claim),
      (claimGleanLoop script (N : Int) fuel iter calls acc).2 ≤ calls + 2 * (N - iter) := by
  intro fuel
  induction fuel with
  | zero => intro iter calls acc; rw [claimGleanLoop]; omega
  | succ fuel ih =>
    intro iter calls acc
    rw [claimGleanLoop]
    by_cases hcond : ((N : Int) < 0 ∨ (iter : Int) < (N : Int))
    · rw [if_pos hcond]
      have hiter : iter < N := by rcases hcond with h | h <;> omega
      dsimp only
      by_cases hn : startsWithN (script (calls + 1)) = true
      · rw [if_pos hn]; dsimp only; omega
      · rw [if_neg hn]
        have happ := ih (iter + 1) (calls + 2) (acc ++ parseClaimsOutput (script calls))
        calc _ ≤ (calls + 2) + 2 * (N - (iter + 1)) := happ
        _ ≤ calls + 2 * (N - iter) := by omega
    · rw [if_neg hcond]; omega

lemma claimGleanLoop_earlyStop (script : Nat → Chars) (maxG : Int) (i : Nat)
    (hN : startsWithN (script (2 * i + 2)) = true) :
    ∀ (fuel iter : Nat) (acc : List Claim), iter ≤ i →
      (claimGleanLoop script maxG fuel iter (2 * iter + 1) acc).2 ≤ 2 * i + 3 := by
  intro fuel
  induction fuel with
  | zero => intro iter acc hle; rw [claimGleanLoop]; omega
  | succ fuel ih =>
    intro iter acc hle
    rw [claimGleanLoop]
    by_cases hcond : (maxG < 0 ∨ (iter : Int) < maxG)
    · rw [if_pos hcond]
      dsimp only
      by_cases hn : startsWithN (script (2 * iter + 1 + 1)) = true
      · rw [if_pos hn]; dsimp only; omega
      · rw [if_neg hn]
        have hne : iter ≠ i := by
          intro hc
          subst hc
          rw [show 2 * iter + 1 + 1 = 2 * iter + 2 by omega] at hn
          exact hn hN
        rw [show 2 * iter + 1 + 2 = 2 * (iter + 1) + 1 by omega]
        exact ih (iter + 1) _ (by omega)
    · rw [if_neg hcond]; omega

lemma claimGleanLoop_fuel_irrel (script : Nat → Chars) (N : Nat) :
    ∀ (f1 f2 iter calls : Nat) (acc : List Claim),
      N ≤ iter + f1 → N ≤ iter + f2 →
      claimGleanLoop script (N : Int) f1 iter calls acc =
        claimGleanLoop script (N : Int) f2 iter calls acc := by
  intro f1
  induction f1 with
  | zero =>
    intro f2 iter calls acc h1 h2
    have hcond : ¬ ((N : Int) < 0 ∨ (iter : Int) < (N : Int)) := by
      push_neg
      constructor <;> omega
    cases f2 with
    | zero => rfl
    | succ f2 =>
      conv_rhs => rw [claimGleanLoop]
      rw [if_neg hcond, claimGleanLoop]
  | succ f1 ih =>
    intro f2 iter calls acc h1 h2
    by_cases hcond : ((N : Int) < 0 ∨ (iter : Int) < (N : Int))
    · have hiter : iter < N := by rcases hcond with h | h <;> omega
      cases f2 with
      | zero => exfalso; omega
      | succ f2 =>
        conv_lhs => rw [claimGleanLoop]
        conv_rhs => rw [claimGleanLoop]
        rw [if_pos hcond, if_pos hcond]
        dsimp only
        by_cases hn : startsWithN (script (calls + 1)) = true
        · rw [if_pos hn, if_pos hn]
        · rw [if_neg hn, if_neg hn]
          apply ih <;> omega
    · cases f2 with
      | zero =>
        conv_lhs => rw [claimGleanLoop]
        rw [if_neg hcond, claimGleanLoop]
      | succ f2 =>
        conv_lhs => rw [claimGleanLoop]
        conv_rhs => rw [claimGleanLoop]
        rw [if_neg hcond, if_neg hcond]

lemma graphExtract_zero (script : Nat → Chars) (fuel : Nat) :
    graphExtract script 0 fuel =
      ((dedupByKey Entity.name (parseGraphOutput (script 0)).1,
        dedupByKey (fun rel => (rel.source, rel.target)) (parseGraphOutput (script 0)).2), 1) := by
  unfold graphExtract graphExtractRaw
  rw [graphGleanLoop_zero]

lemma claimExtract_zero (hsh : Chars → Int) (script : Nat → Chars) (fuel : Nat) :
    claimExtract hsh script 0 fuel =
      (dedupByKey (claimKey hsh) (parseClaimsOutput (script 0)), 1) := by
  unfold claimExtract claimExtractRaw
  rw [claimGleanLoop_zero]

/-- C3: call accounting of the gleaning loops against a scripted client.
With `max_gleanings = 0` exactly one chat call is made and the result comes
from that single reply; with bound `N` at most `1 + 2N` calls are made; a
check reply (call index `2i + 2`) whose stripped text starts with N/n stops
the loop with at most `2i + 3` calls; and for `fuel ≥ N` the observed run
is independent of the fuel (the loop terminates by itself). -/
theorem C3_gleaning_call_bounds (script : Nat → Chars) (hsh : Chars → Int) (N fuel : Nat) :
    ((graphExtract script 0 fuel).2 = 1 ∧
     (graphExtract script 0 fuel).1 =
       (dedupByKey Entity.name (parseGraphOutput (script 0)).1,
        dedupByKey (fun rel => (rel.source, rel.target)) (parseGraphOutput (script 0)).2) ∧
     (claimExtract hsh script 0 fuel).2 = 1 ∧
     (claimExtract hsh script 0 fuel).1 =
       dedupByKey (claimKey hsh) (parseClaimsOutput (script 0))) ∧
    ((graphExtract script (N : Int) fuel).2 ≤ 1 + 2 * N ∧
     (claimExtract hsh script (N : Int) fuel).2 ≤ 1 + 2 * N) ∧
    (∀ i : Nat, startsWithN (script (2 * i + 2)) = true →
       (graphExtract script (N : Int) fuel).2 ≤ 2 * i + 3 ∧
       (claimExtract hsh script (N : Int) fuel).2 ≤ 2 * i + 3) ∧
    (∀ f1 f2 : Nat, N ≤ f1 → N ≤ f2 →
       graphExtract script (N : Int) f1 = graphExtract script (N : Int) f2 ∧
       claimExtract hsh script (N : Int) f1 = claimExtract hsh script (N : Int) f2) := by
  refine ⟨⟨?_, ?_, ?_, ?_⟩, ⟨?_, ?_⟩, ?_, ?_⟩
  · rw [graphExtract_zero]
  · rw [graphExtract_zero]
  · rw [claimExtract_zero]
  · rw [claimExtract_zero]
  · show (graphGleanLoop script (N : Int) fuel 0 1 (parseGraphOutput (script 0))).2 ≤ 1 + 2 * N
    have := graphGleanLoop_calls_le script N fuel 0 1 (parseGraphOutput (script 0))
    omega
  · show (claimGleanLoop script (N : Int) fuel 0 1 (parseClaimsOutput (script 0))).2 ≤ 1 + 2 * N
    have := claimGleanLoop_calls_le script N fuel 0 1 (parseClaimsOutput (script 0))
    omega
  · intro i hi
    constructor
    · show (graphGleanLoop script (N : Int) fuel 0 1 (parseGraphOutput (script 0))).2 ≤ 2 * i + 3
      have := graphGleanLoop_earlyStop script (N : Int) i hi fuel 0
        (parseGraphOutput (script 0)) (by omega)
      simpa using this
    · show (claimGleanLoop script (N : Int) fuel 0 1 (parseClaimsOutput (script 0))).2 ≤ 2 * i + 3
      have := claimGleanLoop_earlyStop script (N : Int) i hi fuel 0
        (parseClaimsOutput (script 0)) (by omega)
      simpa using this
  · intro f1 f2 h1 h2
    constructor
    · have hr : graphExtractRaw script (N : Int) f1 = graphExtractRaw script (N : Int) f2 := by
        unfold graphExtractRaw
        exact graphGleanLoop_fuel_irrel script N f1 f2 0 1 _ (by omega) (by omega)
      unfold graphExtract
      rw [hr]
    · have hr : claimExtractRaw script (N : Int) f1 = claimExtractRaw script (N : Int) f2 := by
        unfold claimExtractRaw
        exact claimGleanLoop_fuel_irrel script N f1 f2 0 1 _ (by omega) (by omega)
      unfold claimExtract
      rw [hr]

/-- C4: the deduplicated outputs of both extractors have pairwise-distinct
identity keys (entity name; relationship (source, target); claim
(subject, type, hash of first 50 description chars)), and each kept record
is the first occurrence of its key in the accumulated pre-dedup list. -/
theorem C4_dedup_first_occurrence_wins (hsh : Chars → Int) (script : Nat → Chars)
    (maxG : Int) (fuel : Nat) :
    ((graphExtract script maxG fuel).1.1.Pairwise fun a b => a.name ≠ b.name) ∧
    ((graphExtract script maxG fuel).1.2.Pairwise fun a b =>
      (a.source, a.target) ≠ (b.source, b.target)) ∧
    ((claimExtract hsh script maxG fuel).1.Pairwise fun a b =>
      claimKey hsh a ≠ claimKey hsh b) ∧
    (∀ e ∈ (graphExtract script maxG fuel).1.1,
      (graphExtractRaw script maxG fuel).1.1.find? (fun y => y.name = e.name) = some e) ∧
    (∀ r ∈ (graphExtract script maxG fuel).1.2,
      (graphExtractRaw script maxG fuel).1.2.find?
        (fun y => (y.source, y.target) = (r.source, r.target)) = some r) ∧
    (∀ c ∈ (claimExtract hsh script maxG fuel).1,
      (claimExtractRaw script maxG fuel).1.find?
        (fun y => claimKey hsh y = claimKey hsh c) = some c) := by
  refine ⟨?_, ?_, ?_, ?_, ?_, ?_⟩
  · exact dedupAux_pairwise_keys Entity.name [] (graphExtractRaw script maxG fuel).1.1
  · exact dedupAux_pairwise_keys (fun rel => (rel.source, rel.target)) []
      (graphExtractRaw script maxG fuel).1.2
  · exact dedupAux_pairwise_keys (claimKey hsh) [] (claimExtractRaw script maxG fuel).1
  · intro e he
    exact dedupAux_find? Entity.name [] (graphExtractRaw script maxG fuel).1.1 e he
  · intro r hr
    have hr2 : r ∈ dedupAux (fun rel : Relationship => (rel.source, rel.target)) []
        (graphExtractRaw script maxG fuel).1.2 := hr
    exact dedupAux_find? (fun rel : Relationship => (rel.source, rel.target)) []
      (graphExtractRaw script maxG fuel).1.2 r hr2
  · intro c hc
    exact dedupAux_find? (claimKey hsh) [] (claimExtractRaw script maxG fuel).1 c hc

/-- C10: each deduplicated output is a sublist of the accumulated pre-dedup
records, ordered by the position of the first occurrence of each record's
identity key — so records whose keys first appeared in earlier replies
precede those whose keys first appeared in later replies. -/
theorem C10_first_occurrence_order (hsh : Chars → Int) (script : Nat → Chars)
    (maxG : Int) (fuel : Nat) :
    List.Sublist (graphExtract script maxG fuel).1.1 (graphExtractRaw script maxG fuel).1.1 ∧
    List.Sublist (graphExtract script maxG fuel).1.2 (graphExtractRaw script maxG fuel).1.2 ∧
    List.Sublist (claimExtract hsh script maxG fuel).1 (claimExtractRaw script maxG fuel).1 ∧
    ((graphExtract script maxG fuel).1.1.Pairwise fun a b =>
      (graphExtractRaw script maxG fuel).1.1.findIdx (fun y => y.name = a.name) <
      (graphExtractRaw script maxG fuel).1.1.findIdx (fun y => y.name = b.name)) ∧
    ((graphExtract script maxG fuel).1.2.Pairwise fun a b =>
      (graphExtractRaw script maxG fuel).1.2.findIdx
        (fun y => (y.source, y.target) = (a.source, a.target)) <
      (graphExtractRaw script maxG fuel).1.2.findIdx
        (fun y => (y.source, y.target) = (b.source, b.target))) ∧
    ((claimExtract hsh script maxG fuel).1.Pairwise fun a b =>
      (claimExtractRaw script maxG fuel).1.findIdx
        (fun y => claimKey hsh y = claimKey hsh a) <
      (claimExtractRaw script maxG fuel).1.findIdx
        (fun y => claimKey hsh y = claimKey hsh b)) := by
  refine ⟨?_, ?_, ?_, ?_, ?_, ?_⟩
  · exact dedupAux_sublist Entity.name [] (graphExtractRaw script maxG fuel).1.1
  · exact dedupAux_sublist (fun rel => (rel.source, rel.target)) []
      (graphExtractRaw script maxG fuel).1.2
  · exact dedupAux_sublist (claimKey hsh) [] (claimExtractRaw script maxG fuel).1
  · exact dedupAux_pairwise_firstIdx Entity.name [] (graphExtractRaw script maxG fuel).1.1
  · exact dedupAux_pairwise_firstIdx (fun rel => (rel.source, rel.target)) []
      (graphExtractRaw script maxG fuel).1.2
  · exact dedupAux_pairwise_firstIdx (claimKey hsh) [] (claimExtractRaw script maxG fuel).1

/-- C6: the weight of every relationship record that parses is determined
by its 5th field exactly as the source computes it — `1.0` when the field
is absent or `float()` fails on it, the parsed value otherwise. -/
theorem C6_relationship_weight_default (record : Chars) (rel : Relationship)
    (h : parseGraphRecord record = some (Sum.inr rel)) :
    ∃ content, extractParenGroup (pyStrip record) = some content ∧
      rel.weight = (match (splitOnSep TUPLE_DELIMITER content).get? 4 with
        | none => PyFloat.finite 1
        | some w => (pyFloatParse (cleanStr w)).getD (PyFloat.finite 1)) := by
  by_cases he : (pyStrip record).isEmpty
  · simp [parseGraphRecord, he] at h
  cases hpg : extractParenGroup (pyStrip record) with
  | none => simp [parseGraphRecord, he, hpg] at h
  | some content =>
    refine ⟨content, rfl, ?_⟩
    rcases hsp : splitOnSep TUPLE_DELIMITER content with _ | ⟨t, _ | ⟨a, _ | ⟨b, _ | ⟨c0, tail⟩⟩⟩⟩
    · simp [parseGraphRecord, he, hpg, hsp] at h
    · simp [parseGraphRecord, he, hpg, hsp] at h
    · simp [parseGraphRecord, he, hpg, hsp] at h
    · by_cases hrt1 : stripQuotes ((cleanStr t).map Char.toLower) = "entity".data
      · simp [parseGraphRecord, he, hpg, hsp, hrt1] at h
      · by_cases hrt2 : stripQuotes ((cleanStr t).map Char.toLower) = "relationship".data
        · simp [parseGraphRecord, he, hpg, hsp, hrt1, hrt2] at h
        · simp [parseGraphRecord, he, hpg, hsp, hrt1, hrt2] at h
    · by_cases hrt1 : stripQuotes ((cleanStr t).map Char.toLower) = "entity".data
      · simp [parseGraphRecord, he, hpg, hsp, hrt1] at h
      · by_cases hrt2 : stripQuotes ((cleanStr t).map Char.toLower) = "relationship".data
        · simp only [parseGraphRecord, he, hpg, hsp, Bool.false_eq_true, if_false,
            ite_false, ite_true] at h
          rw [if_neg hrt1, if_pos hrt2] at h
          cases tail with
          | nil =>
            dsimp only at h
            injection h with h2
            injection h2 with h3
            subst h3
            rfl
          | cons w tr =>
            dsimp only at h
            injection h with h2
            injection h2 with h3
            subst h3
            rfl
        · simp [parseGraphRecord, he, hpg, hsp, hrt1, hrt2] at h

/-- C6 witness: a concrete relationship record whose 5th field does not
parse as a float gets weight exactly 1.0. -/
theorem C6_witness :
    ∃ content,
      extractParenGroup (pyStrip "(\"relationship\"<|>A<|>B<|>d<|>xyz)".data) = some content ∧
      (⟨"A".data, "B".data, "d".data, PyFloat.finite 1⟩ : Relationship).weight =
        (match (splitOnSep TUPLE_DELIMITER content).get? 4 with
          | none => PyFloat.finite 1
          | some w => (pyFloatParse (cleanStr w)).getD (PyFloat.finite 1)) :=
  C6_relationship_weight_default "(\"relationship\"<|>A<|>B<|>d<|>xyz)".data
    ⟨"A".data, "B".data, "d".data, PyFloat.finite 1⟩ (by decide)

/-- C7: every claim record that parses maps object/start_date/end_date to
`none` exactly when the normalized field uppercases to "NONE", while
subject, type, status, description and source_text always keep their
normalized value. -/
theorem C7_claim_none_mapping (record : Chars) (c : Claim)
    (h : parseClaimRecord record = some c) :
    ∃ content p0 p1 p2 p3 p4 p5 p6 p7 rest,
      extractParenGroup (pyStrip record) = some content ∧
      splitOnSep TUPLE_DELIMITER content =
        p0 :: p1 :: p2 :: p3 :: p4 :: p5 :: p6 :: p7 :: rest ∧
      c.subject = cleanStr p0 ∧
      c.object = (if (cleanStr p1).map Char.toUpper = "NONE".data then none
        else some (cleanStr p1)) ∧
      c.type = cleanStr p2 ∧
      c.status = cleanStr p3 ∧
      c.start_date = (if (cleanStr p4).map Char.toUpper = "NONE".data then none
        else some (cleanStr p4)) ∧
      c.end_date = (if (cleanStr p5).map Char.toUpper = "NONE".data then none
        else some (cleanStr p5)) ∧
      c.description = cleanStr p6 ∧
      c.source_text = cleanStr p7 := by
  by_cases he : (pyStrip record).isEmpty
  · simp [parseClaimRecord, he] at h
  cases hpg : extractParenGroup (pyStrip record) with
  | none => simp [parseClaimRecord, he, hpg] at h
  | some content =>
    rcases hsp : splitOnSep TUPLE_DELIMITER content with
      _ | ⟨p0, _ | ⟨p1, _ | ⟨p2, _ | ⟨p3, _ | ⟨p4, _ | ⟨p5, _ | ⟨p6, _ | ⟨p7, rest⟩⟩⟩⟩⟩⟩⟩⟩
    · simp [parseClaimRecord, he, hpg, hsp] at h
    · simp [parseClaimRecord, he, hpg, hsp] at h
    · simp [parseClaimRecord, he, hpg, hsp] at h
    · simp [parseClaimRecord, he, hpg, hsp] at h
    · simp [parseClaimRecord, he, hpg, hsp] at h
    · simp [parseClaimRecord, he, hpg, hsp] at h
    · simp [parseClaimRecord, he, hpg, hsp] at h
    · simp [parseClaimRecord, he, hpg, hsp] at h
    · refine ⟨content, p0, p1, p2, p3, p4, p5, p6, p7, rest, rfl, hsp,
        ?_, ?_, ?_, ?_, ?_, ?_, ?_, ?_⟩ <;>
      · simp only [parseClaimRecord, he, hpg, hsp, Bool.false_eq_true, if_false,
          ite_false, ite_true] at h
        injection h with h2
        subst h2
        rfl

/-- C7 witness: a concrete claim record where subject/type uppercase to
"NONE" and are kept, while object and start_date become `none`. -/
theorem C7_witness :
    ∃ content p0 p1 p2 p3 p4 p5 p6 p7 rest,
      extractParenGroup (pyStrip "(NONE<|>NONE<|>none<|>TRUE<|>NoNe<|>2024<|>D<|>S)".data) =
        some content ∧
      splitOnSep TUPLE_DELIMITER content =
        p0 :: p1 :: p2 :: p3 :: p4 :: p5 :: p6 :: p7 :: rest ∧
      (⟨"NONE".data, none, "none".data, "TRUE".data, none, some "2024".data,
        "D".data, "S".data⟩ : Claim).subject = cleanStr p0 ∧
      (⟨"NONE".data, none, "none".data, "TRUE".data, none, some "2024".data,
        "D".data, "S".data⟩ : Claim).object =
        (if (cleanStr p1).map Char.toUpper = "NONE".data then none
          else some (cleanStr p1)) ∧
      (⟨"NONE".data, none, "none".data, "TRUE".data, none, some "2024".data,
        "D".data, "S".data⟩ : Claim).type = cleanStr p2 ∧
      (⟨"NONE".data, none, "none".data, "TRUE".data, none, some "2024".data,
        "D".data, "S".data⟩ : Claim).status = cleanStr p3 ∧
      (⟨"NONE".data, none, "none".data, "TRUE".data, none, some "2024".data,
        "D".data, "S".data⟩ : Claim).start_date =
        (if (cleanStr p4).map Char.toUpper = "NONE".data then none
          else some (cleanStr p4)) ∧
      (⟨"NONE".data, none, "none".data, "TRUE".data, none, some "2024".data,
        "D".data, "S".data⟩ : Claim).end_date =
        (if (cleanStr p5).map Char.toUpper = "NONE".data then none
          else some (cleanStr p5)) ∧
      (⟨"NONE".data, none, "none".data, "TRUE".data, none, some "2024".data,
        "D".data, "S".data⟩ : Claim).description = cleanStr p6 ∧
      (⟨"NONE".data, none, "none".data, "TRUE".data, none, some "2024".data,
        "D".data, "S".data⟩ : Claim).source_text = cleanStr p7 :=
  C7_claim_none_mapping "(NONE<|>NONE<|>none<|>TRUE<|>NoNe<|>2024<|>D<|>S)".data
    ⟨"NONE".data, none, "none".data, "TRUE".data, none, some "2024".data,
      "D".data, "S".data⟩ (by decide)

/-- C8: a chunk that is empty after trimming, has no trailing parenthesized
group, or has fewer fields than its kind's minimum (4 for the graph parser,
8 for the claims parser) contributes no record, and removing it from the
chunk list leaves both parsers' outputs unchanged. -/
theorem C8_defective_chunks_skipped (r s : Chars) (pre post preC postC : List Chars)
    (hg : pyStrip r = [] ∨ extractParenGroup (pyStrip r) = none ∨
      ∃ content, extractParenGroup (pyStrip r) = some content ∧
        (splitOnSep TUPLE_DELIMITER content).length < 4)
    (hc : pyStrip s = [] ∨ extractParenGroup (pyStrip s) = none ∨
      ∃ content, extractParenGroup (pyStrip s) = some content ∧
        (splitOnSep TUPLE_DELIMITER content).length < 8) :
    parseGraphRecord r = none ∧ parseClaimRecord s = none ∧
    (pre ++ r :: post).filterMap entityOfRecord = (pre ++ post).filterMap entityOfRecord ∧
    (pre ++ r :: post).filterMap relationshipOfRecord =
      (pre ++ post).filterMap relationshipOfRecord ∧
    (preC ++ s :: postC).filterMap parseClaimRecord =
      (preC ++ postC).filterMap parseClaimRecord := by
  have hgr : parseGraphRecord r = none := by
    rcases hg with h1 | h2 | ⟨content, hct, hlen⟩
    · simp [parseGraphRecord, h1]
    · simp [parseGraphRecord, h2]
    · rcases hsp : splitOnSep TUPLE_DELIMITER content with
        _ | ⟨t, _ | ⟨a, _ | ⟨b, _ | ⟨c0, tail⟩⟩⟩⟩
      · simp [parseGraphRecord, hct, hsp]
      · simp [parseGraphRecord, hct, hsp]
      · simp [parseGraphRecord, hct, hsp]
      · simp [parseGraphRecord, hct, hsp]
      · rw [hsp] at hlen
        simp at hlen
        omega
  have hcl : parseClaimRecord s = none := by
    rcases hc with h1 | h2 | ⟨content, hct, hlen⟩
    · simp [parseClaimRecord, h1]
    · simp [parseClaimRecord, h2]
    · rcases hsp : splitOnSep TUPLE_DELIMITER content with
        _ | ⟨p0, _ | ⟨p1, _ | ⟨p2, _ | ⟨p3, _ | ⟨p4, _ | ⟨p5, _ | ⟨p6, _ | ⟨p7, rest⟩⟩⟩⟩⟩⟩⟩⟩
      · simp [parseClaimRecord, hct, hsp]
      · simp [parseClaimRecord, hct, hsp]
      · simp [parseClaimRecord, hct, hsp]
      · simp [parseClaimRecord, hct, hsp]
      · simp [parseClaimRecord, hct, hsp]
      · simp [parseClaimRecord, hct, hsp]
      · simp [parseClaimRecord, hct, hsp]
      · simp [parseClaimRecord, hct, hsp]
      · rw [hsp] at hlen
        simp at hlen
        omega
  have hEnt : entityOfRecord r = none := by rw [entityOfRecord, hgr]
  have hRel : relationshipOfRecord r = none := by rw [relationshipOfRecord, hgr]
  refine ⟨hgr, hcl, ?_, ?_, ?_⟩ <;>
    simp [List.filterMap_append, List.filterMap_cons, hEnt, hRel, hcl]

/-- C8 witness: concrete defective chunks (no parenthesized group). -/
theorem C8_witness :
    parseGraphRecord "garbled text".data = none ∧
    parseClaimRecord "more garbled".data = none :=
  ⟨(C8_defective_chunks_skipped "garbled text".data "more garbled".data [] [] [] []
      (Or.inr (Or.inl (by decide))) (Or.inr (Or.inl (by decide)))).1,
   (C8_defective_chunks_skipped "garbled text".data "more garbled".data [] [] [] []
      (Or.inr (Or.inl (by decide))) (Or.inr (Or.inl (by decide)))).2.1⟩

/-! ## The exception-explicit parsers never raise (claim C5) -/

@[simp] lemma listGetE_cons_zero {α : Type} (a : α) (l : List α) :
    listGetE (a :: l) 0 = .ok a := rfl

@[simp] lemma listGetE_cons_succ {α : Type} (a : α) (l : List α) (i : Nat) :
    listGetE (a :: l) (i + 1) = listGetE l i := rfl

@[simp] lemma Except.ok_bind {ε α β : Type} (a : α) (f : α → Except ε β) :
    (Except.ok a : Except ε α) >>= f = f a := rfl

@[simp] lemma pureExcept_eq_ok {ε α : Type} (a : α) :
    (pure a : Except ε α) = Except.ok a := rfl

lemma parseGraphRecordE_eq (r : Chars) :
    parseGraphRecordE r = .ok (parseGraphRecord r) := by
  by_cases he : (pyStrip r).isEmpty
  · simp [parseGraphRecordE, parseGraphRecord, he]
  cases hpg : extractParenGroup (pyStrip r) with
  | none => simp [parseGraphRecordE, parseGraphRecord, he, hpg]
  | some content =>
    rcases hsp : splitOnSep TUPLE_DELIMITER content with _ | ⟨t, _ | ⟨a, parts2⟩⟩
    · simp [parseGraphRecordE, parseGraphRecord, he, hpg, hsp]
    · simp [parseGraphRecordE, parseGraphRecord, he, hpg, hsp]
    · by_cases hrt1 : stripQuotes ((cleanStr t).map Char.toLower) = "entity".data
      · have hne : stripQuotes ((cleanStr t).map Char.toLower) ≠ "relationship".data := by
          rw [hrt1]; decide
        rcases parts2 with _ | ⟨b, _ | ⟨c0, tail⟩⟩
        · simp [parseGraphRecordE, parseGraphRecord, he, hpg, hsp, hrt1, hne]
        · simp [parseGraphRecordE, parseGraphRecord, he, hpg, hsp, hrt1, hne]
        · simp [parseGraphRecordE, parseGraphRecord, he, hpg, hsp, hrt1, hne]
      · by_cases hrt2 : stripQuotes ((cleanStr t).map Char.toLower) = "relationship".data
        · rcases parts2 with _ | ⟨b, _ | ⟨c0, tail⟩⟩
          · simp [parseGraphRecordE, parseGraphRecord, he, hpg, hsp, hrt1, hrt2]
          · simp [parseGraphRecordE, parseGraphRecord, he, hpg, hsp, hrt1, hrt2]
          · cases tail with
            | nil => simp [parseGraphRecordE, parseGraphRecord, he, hpg, hsp, hrt1, hrt2]
            | cons w tr =>
              cases hw : pyFloatParse (cleanStr w) with
              | none =>
                simp [parseGraphRecordE, parseGraphRecord, he, hpg, hsp, hrt1, hrt2,
                  pyFloatE, hw]
              | some f =>
                simp [parseGraphRecordE, parseGraphRecord, he, hpg, hsp, hrt1, hrt2,
                  pyFloatE, hw]
        · simp [parseGraphRecordE, parseGraphRecord, he, hpg, hsp, hrt1, hrt2]

lemma parseClaimRecordE_eq (r : Chars) :
    parseClaimRecordE r = .ok (parseClaimRecord r) := by
  by_cases he : (pyStrip r).isEmpty
  · simp [parseClaimRecordE, parseClaimRecord, he]
  cases hpg : extractParenGroup (pyStrip r) with
  | none => simp [parseClaimRecordE, parseClaimRecord, he, hpg]
  | some content =>
    rcases hsp : splitOnSep TUPLE_DELIMITER content with
      _ | ⟨p0, _ | ⟨p1, _ | ⟨p2, _ | ⟨p3, _ | ⟨p4, _ | ⟨p5, _ | ⟨p6, _ | ⟨p7, rest⟩⟩⟩⟩⟩⟩⟩⟩ <;>
      simp [parseClaimRecordE, parseClaimRecord, he, hpg, hsp]

lemma mapM_loop_ok {α β : Type} (f : α → Except PyExc β) (g : α → β)
    (hf : ∀ x, f x = .ok (g x)) :
    ∀ (l : List α) (acc : List β),
      List.mapM.loop f l acc = .ok (acc.reverse ++ l.map g) := by
  intro l
  induction l with
  | nil => intro acc; simp [List.mapM.loop]
  | cons x rest ih =>
    intro acc
    simp [List.mapM.loop, hf x, ih (g x :: acc)]

lemma mapM_ok {α β : Type} (f : α → Except PyExc β) (g : α → β)
    (hf : ∀ x, f x = .ok (g x)) : ∀ l : List α, l.mapM f = .ok (l.map g) := by
  intro l
  rw [List.mapM, mapM_loop_ok f g hf l []]
  simp

/-- C5: on every input both parsers, with their fallible operations made
explicit in the `Except` monad, return `.ok` of the pure parsers' results —
no exception is ever raised, and the worst case is an empty record list. -/
theorem C5_parsers_never_raise (l : Chars) :
    parseGraphOutputE l = .ok (parseGraphOutput l) ∧
    parseClaimsOutputE l = .ok (parseClaimsOutput l) := by
  constructor
  · rw [parseGraphOutputE, mapM_ok parseGraphRecordE parseGraphRecord parseGraphRecordE_eq]
    simp only [Except.ok_bind, pureExcept_eq_ok, List.filterMap_map, parseGraphOutput,
      Option.some_inj]
    exact congrArg Except.ok (congrArg₂ Prod.mk
      (List.filterMap_congr (fun r _ => rfl)) (List.filterMap_congr (fun r _ => rfl)))
  · rw [parseClaimsOutputE, mapM_ok parseClaimRecordE parseClaimRecord parseClaimRecordE_eq]
    simp only [Except.ok_bind, pureExcept_eq_ok, List.filterMap_map, parseClaimsOutput,
      Option.some_inj]
    exact congrArg Except.ok (List.filterMap_congr (fun r _ => rfl))
